import Mathlib

/-!
Verification development for the MA-Financing-Graph extraction and
reconciliation pipeline.  The Python services are shallowly embedded:
strings are lists of characters, machine floats are modelled as exact
rationals, nullable columns as `Option`, and the database session as an
explicit store record that every service function threads through.
-/

namespace MAFG

/-! ## Python string helpers

`pySpace` is the ASCII part of Python's `str.split` / `str.strip`
whitespace set (the documents handled here are ASCII after
normalization).  `pyStrip`, `pyLower`, `startsList` and `hasSub` embed
`str.strip()`, `str.lower()`, `str.startswith` and the `in` substring
operator. -/

def pySpace (c : Char) : Bool :=
  c == ' ' || c == '\t' || c == '\n' || c == '\r' || c == '\x0b' || c == '\x0c'

def pyStrip (s : List Char) : List Char :=
  ((s.dropWhile pySpace).reverse.dropWhile pySpace).reverse

def pyLower (s : List Char) : List Char :=
  s.map Char.toLower

/-- `startsList p s` = `s.startswith(p)` (does `s` begin with `p`?). -/
def startsList : List Char → List Char → Bool
  | [], _ => true
  | _ :: _, [] => false
  | a :: as, b :: bs => a == b && startsList as bs

/-- `hasSub n h` = Python `n in h` (substring containment). -/
def hasSub (needle : List Char) : List Char → Bool
  | [] => needle.isEmpty
  | c :: t => startsList needle (c :: t) || hasSub needle t

/-- Python truthiness for an optional string (`None` and `""` are falsy). -/
def optStrTruthy : Option (List Char) → Bool
  | none => false
  | some s => !s.isEmpty

/-- Python truthiness for an optional integer id (`None` and `0` are falsy). -/
def optNatTruthy : Option Nat → Bool
  | none => false
  | some n => !(n == 0)

/-- Python `a or b` for an optional string with a string default. -/
def pyOrStr (o : Option (List Char)) (d : List Char) : List Char :=
  match o with
  | none => d
  | some s => if s.isEmpty then d else s

/-- Python `a or b` for an optional rational with a rational default
(`None` and `0.0` are falsy). -/
def pyOrRat (o : Option ℚ) (d : ℚ) : ℚ :=
  match o with
  | none => d
  | some q => if q = 0 then d else q

/-- Association-list lookup embedding Python `dict.get` (first binding wins;
the dictionaries in the source have distinct keys). -/
def alookup {α : Type} (k : List Char) (m : List (List Char × α)) : Option α :=
  (m.find? (fun kv => kv.1 == k)).map (·.2)

/-! ## Attribution engine (`app/services/attribution.py`)

`role_splits` maps instrument family to a map from canonical role to a
rational weight; `underwriting_fee_bps` maps market tag to bps. -/

structure AttributionConfig where
  advisoryFeeBps : List (List Char × ℚ)
  underwritingFeeBps : List (List Char × ℚ)
  roleSplits : List (List Char × List (List Char × ℚ))
  deriving DecidableEq

structure FinParticipant where
  roleNormalized : Option (List Char)
  deriving DecidableEq

structure AttrEvent where
  amountUsd : Option ℚ
  marketTag : Option (List Char)
  instrumentFamily : Option (List Char)
  participants : List FinParticipant
  deriving DecidableEq

/-- `AttributionEngine._get_underwriting_bps`. -/
def getUnderwritingBps (cfg : AttributionConfig) (marketTag : List Char) : ℚ :=
  (alookup marketTag cfg.underwritingFeeBps).getD
    ((alookup ("Unknown".data) cfg.underwritingFeeBps).getD 100)

/-- `AttributionEngine._calculate_event_fee`: zero when `amount_usd` is
missing or zero, otherwise `amount_usd * (bps / 10000)`. -/
def calculateEventFee (cfg : AttributionConfig) (e : AttrEvent) : ℚ :=
  match e.amountUsd with
  | none => 0
  | some a =>
    if a = 0 then 0
    else a * (getUnderwritingBps cfg (pyOrStr e.marketTag ("Unknown".data)) / 10000)

/-- First pass of `AttributionEngine._allocate_to_participants`: the weight
assigned to one participant, `role_splits.get(role, role_splits.get('other', 0.1))`. -/
def participantWeight (roleSplits : List (List Char × ℚ)) (p : FinParticipant) : ℚ :=
  (alookup (pyOrStr p.roleNormalized ("other".data)) roleSplits).getD
    ((alookup ("other".data) roleSplits).getD (1/10))

/-- The `role_splits` table chosen for an event
(`self.config.role_splits.get(instrument_family, {})` with family
defaulting to `'loan'`). -/
def eventRoleSplits (cfg : AttributionConfig) (e : AttrEvent) : List (List Char × ℚ) :=
  (alookup (pyOrStr e.instrumentFamily ("loan".data)) cfg.roleSplits).getD []

/-- Second pass of `_allocate_to_participants`: each weight becomes a fee
share, `total_fee * (w / total_weight)` when the total weight is positive,
else the even split `total_fee / n`. -/
def allocShares (totalFee : ℚ) (n : Nat) (ws : List ℚ) : List ℚ :=
  ws.map (fun w =>
    if 0 < ws.sum then totalFee * (w / ws.sum) else totalFee / (n : ℚ))

/-- `AttributionEngine._allocate_to_participants`: the allocated
`estimated_fee_usd` of each participant, in participant order.  Empty when
the fee is zero (falsy) or there are no participants. -/
def allocateToParticipants (cfg : AttributionConfig) (e : AttrEvent) (totalFee : ℚ) :
    List ℚ :=
  if totalFee = 0 ∨ e.participants = [] then []
  else allocShares totalFee e.participants.length
    (e.participants.map (participantWeight (eventRoleSplits cfg e)))

lemma list_sum_map_mul_left (c : ℚ) (ws : List ℚ) :
    (ws.map (fun w => c * w)).sum = c * ws.sum := by
  induction ws with
  | nil => simp
  | cons w ws ih => simp [ih, mul_add]

lemma list_sum_map_const (c : ℚ) (ws : List ℚ) :
    (ws.map (fun _ => c)).sum = (ws.length : ℚ) * c := by
  induction ws with
  | nil => simp
  | cons w ws ih => simp [ih, add_mul, one_mul, add_comm]

lemma allocShares_sum (totalFee : ℚ) (n : Nat) (ws : List ℚ)
    (hn : n ≠ 0) (hlen : ws.length = n) :
    (allocShares totalFee n ws).sum = totalFee := by
  unfold allocShares
  by_cases hW : 0 < ws.sum
  · simp only [if_pos hW]
    have hWne : ws.sum ≠ 0 := ne_of_gt hW
    have hrw : (fun w => totalFee * (w / ws.sum)) = (fun w => totalFee / ws.sum * w) := by
      funext w
      rw [div_mul_eq_mul_div, mul_div_assoc]
    rw [hrw, list_sum_map_mul_left]
    field_simp
  · simp only [if_neg hW]
    rw [list_sum_map_const, hlen]
    have hn' : (n : ℚ) ≠ 0 := by exact_mod_cast hn
    field_simp

/-- The allocation is exactly conservative: with a non-zero fee and at
least one participant, the allocated shares sum to the event fee. -/
theorem allocate_sum_eq (cfg : AttributionConfig) (e : AttrEvent) (totalFee : ℚ)
    (hfee : totalFee ≠ 0) (hp : e.participants ≠ []) :
    (allocateToParticipants cfg e totalFee).sum = totalFee := by
  unfold allocateToParticipants
  rw [if_neg (by tauto)]
  apply allocShares_sum
  · intro h; exact hp (List.length_eq_zero.mp h)
  · simp

/-- C1: Attribution conservation.  For every financing event with a
non-zero estimated fee (as computed and stored by
`_calculate_event_fee`) and at least one participant, the participant
fee shares produced by `_allocate_to_participants` — each share being
`total_fee * (weight / total_weight)` with `weight =
role_splits[family].get(role, role_splits[family].get('other', 0.1))`,
and the even split `total_fee / n` when the total weight is not positive
(see `participantWeight` and `allocShares`) — sum to the event fee to
within 0.01 USD. -/
theorem C1_attribution_conservation (cfg : AttributionConfig) (e : AttrEvent)
    (hfee : calculateEventFee cfg e ≠ 0) (hp : e.participants ≠ []) :
    |(allocateToParticipants cfg e (calculateEventFee cfg e)).sum -
      calculateEventFee cfg e| < 1/100 := by
  rw [allocate_sum_eq _ _ _ hfee hp]
  simp only [sub_self, abs_zero]
  norm_num

/-- A concrete bond event: two joint bookrunners and one co-manager over
a $1,000,000,000 HY bond at 200 bps. -/
def c1Config : AttributionConfig :=
  { advisoryFeeBps := [(("default".data), 50)]
    underwritingFeeBps := [(("HY_Bond".data), 200), (("Unknown".data), 100)]
    roleSplits :=
      [(("bond".data), [(("joint_bookrunner".data), 1), (("co_manager".data), 1/5)])] }

def c1Event : AttrEvent :=
  { amountUsd := some 1000000000
    marketTag := some ("HY_Bond".data)
    instrumentFamily := some ("bond".data)
    participants :=
      [⟨some ("joint_bookrunner".data)⟩, ⟨some ("joint_bookrunner".data)⟩,
       ⟨some ("co_manager".data)⟩] }

lemma c1_fee_ne : calculateEventFee c1Config c1Event ≠ 0 := by
  norm_num [calculateEventFee, c1Event, c1Config, getUnderwritingBps, pyOrStr,
    alookup, List.find?]

theorem C1_attribution_conservation_witness :
    calculateEventFee c1Config c1Event ≠ 0 ∧ c1Event.participants ≠ [] ∧
    |(allocateToParticipants c1Config c1Event (calculateEventFee c1Config c1Event)).sum -
      calculateEventFee c1Config c1Event| < 1/100 :=
  ⟨c1_fee_ne, by decide,
    C1_attribution_conservation c1Config c1Event c1_fee_ne (by decide)⟩

/-! ## Data model (`app/models/*`)

Facts, deals, financing events and alerts are embedded as records; the
SQLAlchemy session is an explicit `Store` record.  Variant-specific
payload keys become optional fields of a single `Payload` record
(`payload.get(k)` is field access, `payload.get(k, d)` is `.getD d`). -/

inductive FactType
  | partyDefinition | partyMention | sponsorMention | dealDate
  | financingMention | advisorMention | dealValue | manual
  deriving DecidableEq

inductive DealState
  | candidate | opened | closed | locked | needsReview
  deriving DecidableEq

inductive AlertType
  | unparsedMaterialExhibit | failedPrivateTargetExtraction | failedSponsorExtraction
  | lowConfidenceMatch | dealMergeCandidate | unresolvedBank
  deriving DecidableEq

structure PayloadParticipant where
  bank : Option (List Char) := none
  role : Option (List Char) := none
  evidence : Option (List Char) := none
  deriving DecidableEq

structure Payload where
  roleLabel : Option (List Char) := none
  partyNameNormalized : Option (List Char) := none
  partyNameRaw : Option (List Char) := none
  partyNameDisplay : Option (List Char) := none
  cik : Option (List Char) := none
  sponsorNameRaw : Option (List Char) := none
  sponsorNameNormalized : Option (List Char) := none
  sourcePattern : Option (List Char) := none
  dateType : Option (List Char) := none
  dateValue : Option (List Char) := none
  instrumentType : Option (List Char) := none
  instrumentSubtype : Option (List Char) := none
  amountUsd : Option ℚ := none
  amountRaw : Option (List Char) := none
  currency : Option (List Char) := none
  purpose : Option (List Char) := none
  participants : List PayloadParticipant := []
  deriving DecidableEq

structure Fact where
  id : Nat
  factType : FactType
  filingId : Option Nat := none
  exhibitId : Option Nat := none
  dealId : Option Nat := none
  confidence : Option ℚ := none
  evidenceSnippet : Option (List Char) := none
  payload : Payload := {}
  deriving DecidableEq

/-- The `sponsor_evidence` JSON written by `_update_deal_sponsor`
(`fact_id`, evidence snippet truncated to 500 characters, pattern). -/
structure SponsorEvidence where
  factId : Nat
  snippet : Option (List Char)
  pattern : Option (List Char)
  deriving DecidableEq

structure Deal where
  id : Nat
  state : DealState
  dealKey : Option (List Char) := none
  acquirerCik : Option (List Char) := none
  acquirerNameNormalized : Option (List Char) := none
  acquirerNameRaw : Option (List Char) := none
  acquirerNameDisplay : Option (List Char) := none
  targetCik : Option (List Char) := none
  targetNameNormalized : Option (List Char) := none
  targetNameRaw : Option (List Char) := none
  targetNameDisplay : Option (List Char) := none
  sponsorNameRaw : Option (List Char) := none
  sponsorNameNormalized : Option (List Char) := none
  sponsorConfidence : Option ℚ := none
  sponsorEvidence : Option SponsorEvidence := none
  isSponsorBacked : Bool := false
  unresolvedSponsorEntity : Bool := false
  agreementDate : Option (List Char) := none
  announcementDate : Option (List Char) := none
  expectedCloseDate : Option (List Char) := none
  deriving DecidableEq

structure Alert where
  alertType : AlertType
  dealId : Option Nat := none
  filingId : Option Nat := none
  title : List Char := []
  description : List Char := []
  deriving DecidableEq

/-- One entry of the reconciliation `explanations` list built by
`_score_deal_match` (the joined display string is presentation only;
the acquirer- and sponsor-fuzzy branches append no explanation). -/
inductive ExplItem
  | targetExact (display : Option (List Char))
  | targetFuzzy (score : ℚ)
  | sponsorExact (name : Option (List Char))
  | acquirerExact (display : Option (List Char))
  deriving DecidableEq

/-- `reconciliation_explanation`: either the fixed direct-link text or
the joined signal explanations. -/
inductive ReconExplanation
  | direct
  | matched (items : List ExplItem)
  deriving DecidableEq

structure EventParticipant where
  bankNameRaw : Option (List Char)
  bankNameNormalized : List Char
  role : List Char
  roleNormalized : List Char
  evidenceSnippet : Option (List Char)
  deriving DecidableEq

structure FinEvent where
  dealId : Nat
  instrumentFamily : List Char
  instrumentType : Option (List Char)
  amountUsd : Option ℚ
  amountRaw : Option (List Char)
  currency : List Char
  purpose : Option (List Char)
  sourceExhibitId : Option Nat
  sourceFactIds : List Nat
  reconciliationConfidence : ℚ
  reconciliationExplanation : ReconExplanation
  participants : List EventParticipant
  deriving DecidableEq

structure Store where
  facts : List Fact
  deals : List Deal
  events : List FinEvent
  alerts : List Alert
  nextDealId : Nat
  deriving DecidableEq

def getFact (s : Store) (fid : Nat) : Option Fact :=
  s.facts.find? (fun f => f.id == fid)

def getDeal (s : Store) (did : Nat) : Option Deal :=
  s.deals.find? (fun d => d.id == did)

/-- Assign `fact.deal_id = did` on the fact with id `fid`. -/
def setFactDealId (s : Store) (fid : Nat) (did : Nat) : Store :=
  { s with facts := s.facts.map (fun f => if f.id == fid then { f with dealId := some did } else f) }

/-! ## Reconciliation service (`app/services/reconciler.py`) -/

/-- Python `str.replace(old, new)`: replace every non-overlapping
occurrence, scanning left to right. -/
def replaceAll (pat repl : List Char) (s : List Char) : List Char :=
  if h : pat.isEmpty then s
  else
    match s with
    | [] => []
    | c :: t =>
      if startsList pat (c :: t) then repl ++ replaceAll pat repl ((c :: t).drop pat.length)
      else c :: replaceAll pat repl t
termination_by s.length
decreasing_by
  · simp only [List.length_drop, List.length_cons]
    have : pat.length ≠ 0 := by
      intro hz; exact h (List.isEmpty_iff.mpr (List.length_eq_zero.mp hz))
    omega
  · simp

/-- `' '.join(s.split())`: split on whitespace runs. -/
def pyWords : List Char → List (List Char)
  | [] => []
  | c :: t =>
    if pySpace c then pyWords t
    else (c :: t.takeWhile (fun x => !pySpace x)) :: pyWords (t.dropWhile (fun x => !pySpace x))
termination_by s => s.length
decreasing_by
  · simp
  · have := (List.dropWhile_sublist (l := t) (fun x => !pySpace x)).length_le
    simp
    omega

def joinSpace : List (List Char) → List Char
  | [] => []
  | [w] => w
  | w :: ws => w ++ ' ' :: joinSpace ws

/-- `ReconciliationService._normalize_bank_name`: strip, lowercase,
remove the fixed suffix substrings, collapse whitespace. -/
def normalizeBankName (name : List Char) : List Char :=
  let n1 := pyLower (pyStrip name)
  let sufs := [(", n.a.".data), (" n.a.".data), (", na".data), (", inc".data),
               (" inc".data), (" llc".data), (" ltd".data)]
  joinSpace (pyWords (sufs.foldl (fun acc suf => replaceAll suf [] acc) n1))

/-- Keyword dispatch of `_normalize_role` on the already stripped and
lowercased role `r`. -/
def normalizeRoleCore (r : List Char) : List Char :=
  if hasSub ("bookrunner".data) r then
    if hasSub ("joint".data) r then "joint_bookrunner".data else "bookrunner".data
  else if hasSub ("co-manager".data) r || hasSub ("co manager".data) r then "co_manager".data
  else if hasSub ("underwriter".data) r then
    if hasSub ("lead".data) r || hasSub ("senior".data) r then "lead_underwriter".data
    else "underwriter".data
  else if hasSub ("arranger".data) r then
    if hasSub ("joint".data) r && hasSub ("lead".data) r then "joint_lead_arranger".data
    else if hasSub ("lead".data) r || hasSub ("mandated".data) r then "lead_arranger".data
    else "arranger".data
  else if hasSub ("admin".data) r && hasSub ("agent".data) r then "admin_agent".data
  else if hasSub ("syndication".data) r then "syndication_agent".data
  else if hasSub ("agent".data) r then "agent".data
  else r

/-- `ReconciliationService._normalize_role`: canonicalize by keyword
containment, returning the stripped lowercased raw role when no keyword
matches. -/
def normalizeRole (role : List Char) : List Char :=
  normalizeRoleCore (pyLower (pyStrip role))

/-- The canonical role vocabulary of the specification. -/
def canonicalRoles : List (List Char) :=
  [("bookrunner".data), ("joint_bookrunner".data), ("co_manager".data),
   ("lead_underwriter".data), ("underwriter".data), ("lead_arranger".data),
   ("joint_lead_arranger".data), ("arranger".data), ("admin_agent".data),
   ("syndication_agent".data), ("agent".data), ("other".data)]

/-- Result of `_score_deal_match` (`ReconciliationMatch`; the
`match_signals` dict is reflected by the explanation items). -/
structure RecMatch where
  dealId : Nat
  confidence : ℚ
  explanation : List ExplItem
  deriving DecidableEq

/-- Target-name block of `_score_deal_match` (STRONG signal: exact
substring +0.5, else fuzzy partial-ratio above 85 adds `0.4 * ratio`). -/
def targetSignal (pr : List Char → List Char → ℚ) (deal : Deal)
    (ev : List Char) : ℚ × List ExplItem :=
  if optStrTruthy deal.targetNameNormalized then
    if hasSub (deal.targetNameNormalized.getD []) ev then
      (1/2, [ExplItem.targetExact deal.targetNameDisplay])
    else
      if 85 < pr (deal.targetNameNormalized.getD []) ev then
        ((2/5) * (pr (deal.targetNameNormalized.getD []) ev / 100),
         [ExplItem.targetFuzzy (pr (deal.targetNameNormalized.getD []) ev)])
      else (0, [])
  else (0, [])

/-- Sponsor-name block of `_score_deal_match` (WEAK signal: exact +0.2,
else fuzzy above 80 adds `0.1 * ratio`; the fuzzy branch appends no
explanation). -/
def sponsorSignal (pr : List Char → List Char → ℚ) (deal : Deal)
    (ev : List Char) : ℚ × List ExplItem :=
  if optStrTruthy deal.sponsorNameNormalized then
    if hasSub (deal.sponsorNameNormalized.getD []) ev then
      (1/5, [ExplItem.sponsorExact deal.sponsorNameNormalized])
    else
      if 80 < pr (deal.sponsorNameNormalized.getD []) ev then
        ((1/10) * (pr (deal.sponsorNameNormalized.getD []) ev / 100), [])
      else (0, [])
  else (0, [])

/-- Acquirer-name block of `_score_deal_match` (MODERATE signal: exact
+0.3, else fuzzy above 85 adds `0.2 * ratio`; the fuzzy branch appends
no explanation). -/
def acquirerSignal (pr : List Char → List Char → ℚ) (deal : Deal)
    (ev : List Char) : ℚ × List ExplItem :=
  if optStrTruthy deal.acquirerNameNormalized then
    if hasSub (deal.acquirerNameNormalized.getD []) ev then
      (3/10, [ExplItem.acquirerExact deal.acquirerNameDisplay])
    else
      if 85 < pr (deal.acquirerNameNormalized.getD []) ev then
        ((1/5) * (pr (deal.acquirerNameNormalized.getD []) ev / 100), [])
      else (0, [])
  else (0, [])

/-- `ReconciliationService._score_deal_match`, parametrized by the
`rapidfuzz.fuzz.partial_ratio` scorer `pr` (a 0–100 score).  The unused
`payload` argument of the source method is dropped. -/
def scoreDealMatch (pr : List Char → List Char → ℚ) (deal : Deal)
    (evidenceLower : List Char) : RecMatch :=
  { dealId := deal.id
    confidence := min ((targetSignal pr deal evidenceLower).1 +
      (sponsorSignal pr deal evidenceLower).1 +
      (acquirerSignal pr deal evidenceLower).1) 1
    explanation := (targetSignal pr deal evidenceLower).2 ++
      (sponsorSignal pr deal evidenceLower).2 ++
      (acquirerSignal pr deal evidenceLower).2 }

/-- Candidate deals for unlinked reconciliation: states CANDIDATE and OPEN. -/
def candidateDeals (s : Store) : List Deal :=
  s.deals.filter (fun d => d.state == DealState.candidate || d.state == DealState.opened)

/-- The best-match accumulator of `_find_best_deal_match`: a candidate
replaces the running best only on a strictly greater score. -/
def bestStep (pr : List Char → List Char → ℚ) (ev : List Char)
    (acc : Option RecMatch × ℚ) (d : Deal) : Option RecMatch × ℚ :=
  if acc.2 < (scoreDealMatch pr d ev).confidence
  then (some (scoreDealMatch pr d ev), (scoreDealMatch pr d ev).confidence)
  else acc

/-- The `(best_match, best_score)` fold of `_find_best_deal_match`. -/
def bestFolded (pr : List Char → List Char → ℚ) (ev : List Char)
    (ds : List Deal) : Option RecMatch × ℚ :=
  ds.foldl (bestStep pr ev) (none, 0)

/-- `ReconciliationService._find_best_deal_match`: fold with a strictly
increasing best score starting at 0, then require `best ≥ min_confidence`. -/
def findBestDealMatch (pr : List Char → List Char → ℚ) (minConf : ℚ)
    (s : Store) (f : Fact) : Option RecMatch :=
  match (bestFolded pr (pyLower (f.evidenceSnippet.getD [])) (candidateDeals s)).1 with
  | some m =>
    if minConf ≤ (bestFolded pr (pyLower (f.evidenceSnippet.getD [])) (candidateDeals s)).2
    then some m else none
  | none => none

/-- Participant instantiation inside `_create_financing_event`. -/
def mkEventParticipant (p : PayloadParticipant) : EventParticipant :=
  { bankNameRaw := p.bank
    bankNameNormalized := normalizeBankName (p.bank.getD [])
    role := p.role.getD ("unknown".data)
    roleNormalized := normalizeRole (p.role.getD [])
    evidenceSnippet := p.evidence }

/-- `ReconciliationService._create_financing_event`: `None` when the
fact has no (truthy) `deal_id`. -/
def createFinancingEvent (f : Fact) (m : Option RecMatch) : Option FinEvent :=
  if !optNatTruthy f.dealId then none
  else some
    { dealId := f.dealId.getD 0
      instrumentFamily := f.payload.instrumentType.getD ("unknown".data)
      instrumentType := f.payload.instrumentSubtype
      amountUsd := f.payload.amountUsd
      amountRaw := f.payload.amountRaw
      currency := f.payload.currency.getD ("USD".data)
      purpose := f.payload.purpose
      sourceExhibitId := f.exhibitId
      sourceFactIds := [f.id]
      reconciliationConfidence := match m with | some mm => mm.confidence | none => 1
      reconciliationExplanation :=
        match m with | some mm => ReconExplanation.matched mm.explanation | none => ReconExplanation.direct
      participants := f.payload.participants.map mkEventParticipant }

/-- `ReconciliationService._find_existing_event`. -/
def findExistingEvent (s : Store) (f : Fact) : Option FinEvent :=
  if !optNatTruthy f.dealId then none
  else (s.events.filter (fun e => e.dealId == f.dealId.getD 0)).find?
    (fun e => !e.sourceFactIds.isEmpty && e.sourceFactIds.contains f.id)

/-- The snapshot fetched by `reconcile_financing_facts`: clustered
financing facts, in store order. -/
def linkedSnapshot (s : Store) : List Nat :=
  ((s.facts.filter (fun f => f.factType == FactType.financingMention && f.dealId.isSome)).map (·.id))

def reconcileLinkedStep (s : Store) (fid : Nat) : Store :=
  match getFact s fid with
  | none => s
  | some f =>
    match findExistingEvent s f with
    | some _ => s
    | none =>
      match createFinancingEvent f none with
      | some e => { s with events := s.events ++ [e] }
      | none => s

/-- `ReconciliationService.reconcile_financing_facts` (store effect). -/
def reconcileFinancingFacts (s : Store) : Store :=
  (linkedSnapshot s).foldl reconcileLinkedStep s

/-- The snapshot fetched by `reconcile_unlinked_financing`: unlinked
financing facts, in store order. -/
def unlinkedSnapshot (s : Store) : List Nat :=
  ((s.facts.filter (fun f => f.factType == FactType.financingMention && f.dealId.isNone)).map (·.id))

/-- One iteration of `reconcile_unlinked_financing`; the second
component counts `low_confidence_skipped`. -/
def reconcileUnlinkedStep (pr : List Char → List Char → ℚ) (minConf : ℚ)
    (sk : Store × Nat) (fid : Nat) : Store × Nat :=
  match getFact sk.1 fid with
  | none => sk
  | some f =>
    match findBestDealMatch pr minConf sk.1 f with
    | some m =>
      if minConf ≤ m.confidence then
        let s1 := setFactDealId sk.1 fid m.dealId
        match getFact s1 fid with
        | some f1 =>
          match createFinancingEvent f1 (some m) with
          | some e => ({ s1 with events := s1.events ++ [e] }, sk.2)
          | none => (s1, sk.2)
        | none => (s1, sk.2)
      else (sk.1, sk.2 + 1)
    | none => (sk.1, sk.2 + 1)

/-- `ReconciliationService.reconcile_unlinked_financing` (store effect
and the `low_confidence_skipped` counter). -/
def reconcileUnlinkedFinancing (pr : List Char → List Char → ℚ) (minConf : ℚ)
    (s : Store) : Store × Nat :=
  (unlinkedSnapshot s).foldl (reconcileUnlinkedStep pr minConf) (s, 0)

/-! ## C6: participant role normalization -/

lemma normalizeRoleCore_mem_or_raw (r : List Char) :
    normalizeRoleCore r ∈ canonicalRoles ∨ normalizeRoleCore r = r := by
  unfold normalizeRoleCore
  split_ifs <;> first
    | (left; decide)
    | (right; rfl)

lemma normalizeRole_mem_or_raw (role : List Char) :
    normalizeRole role ∈ canonicalRoles ∨ normalizeRole role = pyLower (pyStrip role) :=
  normalizeRoleCore_mem_or_raw (pyLower (pyStrip role))

/-- A financing fact whose single participant carries the raw role
`"Lender"`, which contains none of the recognized role keywords. -/
def c6Fact : Fact :=
  { id := 7, factType := FactType.financingMention, dealId := some 3,
    payload := { participants :=
      [{ bank := some ("Big Bank".data), role := some ("Lender".data) }] } }

/-- C6 counterexample: `_create_financing_event` on `c6Fact` produces a
participant with `role_normalized = "lender"`, which is not in the
canonical role vocabulary — `_normalize_role` passes unrecognized roles
through instead of mapping them to `other`. -/
theorem C6_role_vocabulary_counterexample :
    ((createFinancingEvent c6Fact none).map
      (fun e => e.participants.map (fun p => p.roleNormalized))) = some [("lender".data)] ∧
    ("lender".data) ∉ canonicalRoles := by
  constructor
  · rfl
  · decide

/-- C6 (amended): every participant created by the reconciler has
`role_normalized` either in the canonical vocabulary or exactly equal to
the stripped, lowercased raw role from the payload (unrecognized roles
pass through verbatim; the reconciler never substitutes `other`). -/
theorem C6_role_vocabulary_amended (f : Fact) (m : Option RecMatch) (e : FinEvent)
    (he : createFinancingEvent f m = some e) :
    ∀ p ∈ e.participants, p.roleNormalized ∈ canonicalRoles ∨
      ∃ pp ∈ f.payload.participants, p.roleNormalized = pyLower (pyStrip (pp.role.getD [])) := by
  unfold createFinancingEvent at he
  split at he
  · exact absurd he (by simp)
  · intro p hp
    have hparts : e.participants = f.payload.participants.map mkEventParticipant := by
      cases he; rfl
    rw [hparts, List.mem_map] at hp
    obtain ⟨pp, hpp, rfl⟩ := hp
    rcases normalizeRole_mem_or_raw (pp.role.getD []) with h | h
    · exact Or.inl h
    · exact Or.inr ⟨pp, hpp, h⟩

def c6wPP : PayloadParticipant :=
  { bank := some ("JPMorgan Chase Bank, N.A.".data),
    role := some ("Administrative Agent".data) }

def c6wFact : Fact :=
  { id := 9, factType := FactType.financingMention, dealId := some 4,
    payload := { participants := [c6wPP] } }

def c6wEvent : FinEvent :=
  { dealId := 4
    instrumentFamily := "unknown".data
    instrumentType := none
    amountUsd := none
    amountRaw := none
    currency := "USD".data
    purpose := none
    sourceExhibitId := none
    sourceFactIds := [9]
    reconciliationConfidence := 1
    reconciliationExplanation := ReconExplanation.direct
    participants := [mkEventParticipant c6wPP] }

theorem C6_role_vocabulary_amended_witness :
    (mkEventParticipant c6wPP).roleNormalized ∈ canonicalRoles ∨
      ∃ pp ∈ c6wFact.payload.participants,
        (mkEventParticipant c6wPP).roleNormalized = pyLower (pyStrip (pp.role.getD [])) :=
  C6_role_vocabulary_amended c6wFact none c6wEvent (by rfl)
    (mkEventParticipant c6wPP) (List.mem_singleton.mpr rfl)

/-! ## C5: idempotence of financing-event materialization -/

/-- Does event `e` count for fact `f` in `_find_existing_event`'s sense:
same deal and `f.id ∈ e.source_fact_ids`? -/
def matchingEv (f : Fact) (e : FinEvent) : Bool :=
  e.dealId == f.dealId.getD 0 && e.sourceFactIds.contains f.id

/-- The events of `f`'s deal whose `source_fact_ids` contain `f.id`. -/
def eventsFor (s : Store) (f : Fact) : List FinEvent :=
  s.events.filter (matchingEv f)

lemma optNatTruthy_of {o : Option Nat} (hs : o.isSome) (hz : o ≠ some 0) :
    optNatTruthy o = true := by
  cases o with
  | none => cases hs
  | some n =>
    cases n with
    | zero => exact absurd rfl hz
    | succ m => rfl

lemma find?_id_of_mem {l : List Fact} {f : Fact}
    (hnodup : (l.map (fun g => g.id)).Nodup) (hf : f ∈ l) :
    l.find? (fun g => g.id == f.id) = some f := by
  induction l with
  | nil => cases hf
  | cons g t ih =>
    rw [List.map_cons, List.nodup_cons] at hnodup
    rcases List.mem_cons.mp hf with rfl | hft
    · rw [List.find?_cons_of_pos _ (by simp)]
    · have hne : ¬(g.id = f.id) := by
        intro h
        exact hnodup.1 (h ▸ List.mem_map_of_mem (fun x => x.id) hft)
      rw [List.find?_cons_of_neg _ (by simpa using hne)]
      exact ih hnodup.2 hft

lemma getFact_of_mem {s : Store} {f : Fact}
    (hnodup : (s.facts.map (fun g => g.id)).Nodup) (hf : f ∈ s.facts) :
    getFact s f.id = some f :=
  find?_id_of_mem hnodup hf

lemma mem_unique_of_nodup_ids {l : List Fact} {f g : Fact}
    (hnodup : (l.map (fun x => x.id)).Nodup) (hf : f ∈ l) (hg : g ∈ l)
    (hid : f.id = g.id) : f = g := by
  have h1 := find?_id_of_mem hnodup hf
  have h2 := find?_id_of_mem hnodup hg
  rw [hid] at h1
  rw [h1] at h2
  exact Option.some_injective _ h2

lemma createFinancingEvent_some {f : Fact} (ht : optNatTruthy f.dealId = true) :
    ∃ e, createFinancingEvent f none = some e ∧
      e.dealId = f.dealId.getD 0 ∧ e.sourceFactIds = [f.id] := by
  unfold createFinancingEvent
  rw [if_neg (by simp [ht])]
  exact ⟨_, rfl, rfl, rfl⟩

lemma matchingEv_of_created {f : Fact} {e : FinEvent}
    (hd : e.dealId = f.dealId.getD 0) (hsrc : e.sourceFactIds = [f.id]) :
    matchingEv f e = true := by
  simp [matchingEv, hd, hsrc, List.contains]

lemma findExistingEvent_ne_none {s : Store} {f : Fact}
    (ht : optNatTruthy f.dealId = true) {e : FinEvent}
    (he : e ∈ s.events) (hm : matchingEv f e = true) :
    findExistingEvent s f ≠ none := by
  unfold findExistingEvent
  rw [if_neg (by simp [ht])]
  intro hnone
  rw [List.find?_eq_none] at hnone
  simp only [matchingEv, Bool.and_eq_true, beq_iff_eq] at hm
  have hmemf : e ∈ s.events.filter (fun e => e.dealId == f.dealId.getD 0) := by
    rw [List.mem_filter]
    exact ⟨he, by simp [hm.1]⟩
  apply hnone e hmemf
  rw [Bool.and_eq_true]
  refine ⟨?_, hm.2⟩
  rw [Bool.not_eq_true']
  cases hl : e.sourceFactIds with
  | nil =>
    rw [hl] at hm
    exact absurd hm.2 (by simp [List.contains])
  | cons a t => rfl

lemma findExistingEvent_none_eventsFor {s : Store} {f : Fact}
    (ht : optNatTruthy f.dealId = true)
    (hnone : findExistingEvent s f = none) :
    eventsFor s f = [] := by
  unfold findExistingEvent at hnone
  rw [if_neg (by simp [ht])] at hnone
  rw [List.find?_eq_none] at hnone
  unfold eventsFor
  rw [List.filter_eq_nil]
  intro e he hm
  simp only [matchingEv, Bool.and_eq_true, beq_iff_eq] at hm
  have hmemf : e ∈ s.events.filter (fun e => e.dealId == f.dealId.getD 0) := by
    rw [List.mem_filter]
    exact ⟨he, by simp [hm.1]⟩
  apply hnone e hmemf
  rw [Bool.and_eq_true]
  refine ⟨?_, hm.2⟩
  rw [Bool.not_eq_true']
  cases hl : e.sourceFactIds with
  | nil =>
    rw [hl] at hm
    exact absurd hm.2 (by simp [List.contains])
  | cons a t => rfl

/-- Case analysis of one `reconcile_financing_facts` iteration. -/
lemma reconcileLinkedStep_eq (s : Store) (fid : Nat) :
    reconcileLinkedStep s fid = s ∨
    ∃ f e, getFact s fid = some f ∧ findExistingEvent s f = none ∧
      createFinancingEvent f none = some e ∧
      reconcileLinkedStep s fid = { s with events := s.events ++ [e] } := by
  cases h1 : getFact s fid with
  | none => exact Or.inl (by simp [reconcileLinkedStep, h1])
  | some f =>
    cases h2 : findExistingEvent s f with
    | some e0 => exact Or.inl (by simp [reconcileLinkedStep, h1, h2])
    | none =>
      cases h3 : createFinancingEvent f none with
      | none => exact Or.inl (by simp [reconcileLinkedStep, h1, h2, h3])
      | some e => exact Or.inr ⟨f, e, rfl, h2, h3, by simp [reconcileLinkedStep, h1, h2, h3]⟩

lemma reconcileLinkedStep_facts (s : Store) (fid : Nat) :
    (reconcileLinkedStep s fid).facts = s.facts := by
  rcases reconcileLinkedStep_eq s fid with h | ⟨f, e, _, _, _, h⟩ <;> rw [h]

lemma reconcileLinkedStep_events_mem (s : Store) (fid : Nat) {e : FinEvent}
    (he : e ∈ s.events) : e ∈ (reconcileLinkedStep s fid).events := by
  rcases reconcileLinkedStep_eq s fid with h | ⟨f, e', _, _, _, h⟩ <;> rw [h]
  · exact he
  · exact List.mem_append_left _ he

lemma foldLinked_facts (ids : List Nat) :
    ∀ t : Store, (ids.foldl reconcileLinkedStep t).facts = t.facts := by
  induction ids with
  | nil => intro t; rfl
  | cons i is ih =>
    intro t
    rw [List.foldl_cons, ih, reconcileLinkedStep_facts]

lemma foldLinked_events_mem (ids : List Nat) :
    ∀ (t : Store) (e : FinEvent), e ∈ t.events →
      e ∈ (ids.foldl reconcileLinkedStep t).events := by
  induction ids with
  | nil => intro t e he; exact he
  | cons i is ih =>
    intro t e he
    rw [List.foldl_cons]
    exact ih _ e (reconcileLinkedStep_events_mem t i he)

lemma getFact_congr {t s : Store} (h : t.facts = s.facts) (fid : Nat) :
    getFact t fid = getFact s fid := by
  unfold getFact
  rw [h]

/-- After a run that visits `f.id`, some event of `f`'s deal carries
`f.id` in its `source_fact_ids`. -/
lemma foldLinked_attaches (ids : List Nat) :
    ∀ (t : Store) (f : Fact), f.id ∈ ids → getFact t f.id = some f →
      optNatTruthy f.dealId = true →
      ∃ e ∈ (ids.foldl reconcileLinkedStep t).events, matchingEv f e = true := by
  induction ids with
  | nil => intro t f h; cases h
  | cons i is ih =>
    intro t f hmem hget ht
    rw [List.foldl_cons]
    rcases List.mem_cons.mp hmem with rfl | his
    · by_cases hex : findExistingEvent t f = none
      · obtain ⟨e, hce, hd, hsrc⟩ := createFinancingEvent_some ht
        have hstep : reconcileLinkedStep t f.id = { t with events := t.events ++ [e] } := by
          simp [reconcileLinkedStep, hget, hex, hce]
        refine ⟨e, ?_, matchingEv_of_created hd hsrc⟩
        apply foldLinked_events_mem
        rw [hstep]
        exact List.mem_append_right _ (List.mem_singleton.mpr rfl)
      · obtain ⟨e0, he0⟩ := Option.ne_none_iff_exists'.mp hex
        have hfe := he0
        unfold findExistingEvent at hfe
        rw [if_neg (by simp [ht])] at hfe
        have hmem0 := List.mem_of_find?_eq_some hfe
        have hp0 := List.find?_some hfe
        have hin : e0 ∈ t.events := List.mem_of_mem_filter hmem0
        have hq0 : (e0.dealId == f.dealId.getD 0) = true := (List.mem_filter.mp hmem0).2
        have hc0 : e0.sourceFactIds.contains f.id = true := by
          simp only [Bool.and_eq_true] at hp0
          exact hp0.2
        refine ⟨e0, ?_, by simp only [matchingEv, Bool.and_eq_true]; exact ⟨hq0, hc0⟩⟩
        exact foldLinked_events_mem is _ e0 (reconcileLinkedStep_events_mem t f.id hin)
    · exact ih (reconcileLinkedStep t i) f his
        (by rw [getFact_congr (reconcileLinkedStep_facts t i) f.id]; exact hget) ht

/-- When every visited fact already has a matching event, the run is the
identity on the store. -/
lemma foldLinked_id_of_existing (ids : List Nat) :
    ∀ t : Store,
      (∀ fid ∈ ids, ∀ f, getFact t fid = some f → findExistingEvent t f ≠ none) →
      ids.foldl reconcileLinkedStep t = t := by
  induction ids with
  | nil => intro t _; rfl
  | cons i is ih =>
    intro t h
    have hstep : reconcileLinkedStep t i = t := by
      cases h1 : getFact t i with
      | none => simp [reconcileLinkedStep, h1]
      | some f =>
        have := h i (List.mem_cons_self i is) f h1
        cases h2 : findExistingEvent t f with
        | none => exact absurd h2 this
        | some e0 => simp [reconcileLinkedStep, h1, h2]
    rw [List.foldl_cons, hstep]
    exact ih t (fun fid hfid => h fid (List.mem_cons_of_mem i hfid))

lemma eventsFor_append_one (s : Store) (f : Fact) (e : FinEvent) :
    eventsFor { s with events := s.events ++ [e] } f =
      eventsFor s f ++ (if matchingEv f e then [e] else []) := by
  unfold eventsFor
  rw [List.filter_append]
  congr 1
  cases hm : matchingEv f e <;> simp [hm]

/-- Each run step keeps the per-fact event count at most one. -/
lemma foldLinked_count_le (s : Store)
    (hnodup : (s.facts.map (fun g => g.id)).Nodup) (f : Fact) (hf : f ∈ s.facts)
    (ids : List Nat) :
    ∀ t : Store, t.facts = s.facts → (eventsFor t f).length ≤ 1 →
      (eventsFor (ids.foldl reconcileLinkedStep t) f).length ≤ 1 := by
  induction ids with
  | nil => intro t _ h; exact h
  | cons i is ih =>
    intro t hft hcnt
    rw [List.foldl_cons]
    rcases reconcileLinkedStep_eq t i with hstep | ⟨g, e, hget, hex, hce, hstep⟩
    · rw [hstep]
      exact ih t hft hcnt
    · refine ih _ (by rw [hstep]; exact hft) ?_
      rw [hstep, eventsFor_append_one]
      by_cases hm : matchingEv f e = true
      · -- the appended event carries `[g.id]`, so it matches `f` only when `g = f`
        have hg : g ∈ s.facts := by
          rw [← hft]
          exact List.mem_of_find?_eq_some hget
        have htg : optNatTruthy g.dealId = true := by
          by_contra hnt
          unfold createFinancingEvent at hce
          rw [if_pos (by simpa using hnt)] at hce
          cases hce
        obtain ⟨e', hce', hd', hsrc'⟩ := createFinancingEvent_some (f := g) htg
        rw [hce] at hce'
        have hee : e = e' := Option.some_injective _ hce'
        subst hee
        have hid : g.id = f.id := by
          simp only [matchingEv, Bool.and_eq_true] at hm
          have hcontains := hm.2
          rw [hsrc'] at hcontains
          have hmemid : f.id ∈ [g.id] := by
            simpa [List.contains] using hcontains
          exact (List.mem_singleton.mp hmemid).symm
        have hgf : g = f := mem_unique_of_nodup_ids hnodup hg hf hid
        subst hgf
        have hempty : eventsFor t g = [] := findExistingEvent_none_eventsFor htg hex
        rw [if_pos hm, hempty]
        simp
      · rw [if_neg hm]
        simpa using hcnt

/-- C5: financing-event materialization is idempotent on
`source_fact_ids`.  With distinct fact ids, positive deal ids and an
initially deduplicated event store, a second `reconcile_financing_facts`
run leaves the store unchanged (no additional event is created for a
fact whose id already appears in an event of its deal), and after the
first run every clustered FinancingMention fact has exactly one event of
its deal containing its id. -/
theorem C5_financing_idempotent (s : Store)
    (hnodup : (s.facts.map (fun g => g.id)).Nodup)
    (hdz : ∀ f ∈ s.facts, f.dealId ≠ some 0)
    (hcount : ∀ f ∈ s.facts, (eventsFor s f).length ≤ 1) :
    reconcileFinancingFacts (reconcileFinancingFacts s) = reconcileFinancingFacts s ∧
    ∀ f ∈ s.facts, f.factType = FactType.financingMention → f.dealId.isSome →
      (eventsFor (reconcileFinancingFacts s) f).length = 1 := by
  have hfacts1 : (reconcileFinancingFacts s).facts = s.facts :=
    foldLinked_facts (linkedSnapshot s) s
  have hsnap : linkedSnapshot (reconcileFinancingFacts s) = linkedSnapshot s := by
    unfold linkedSnapshot
    rw [hfacts1]
  constructor
  · unfold reconcileFinancingFacts
    rw [show linkedSnapshot ((linkedSnapshot s).foldl reconcileLinkedStep s) =
        linkedSnapshot s from hsnap]
    apply foldLinked_id_of_existing
    intro fid hfid f hgetf
    -- recover the snapshot fact
    unfold linkedSnapshot at hfid
    rw [List.mem_map] at hfid
    obtain ⟨g, hgmem, hgid⟩ := hfid
    rw [List.mem_filter] at hgmem
    obtain ⟨hgs, hgcond⟩ := hgmem
    simp only [Bool.and_eq_true, beq_iff_eq] at hgcond
    have ht : optNatTruthy g.dealId = true :=
      optNatTruthy_of (by simpa using hgcond.2) (hdz g hgs)
    have hgetg : getFact ((linkedSnapshot s).foldl reconcileLinkedStep s) fid = some g := by
      rw [getFact_congr (foldLinked_facts (linkedSnapshot s) s) fid, ← hgid]
      exact getFact_of_mem hnodup hgs
    have hfg : f = g := by
      rw [hgetf] at hgetg
      exact Option.some_injective _ hgetg
    subst hfg
    have hex := foldLinked_attaches (linkedSnapshot s) s f
      (by
        unfold linkedSnapshot
        rw [List.mem_map]
        exact ⟨f, by rw [List.mem_filter]; exact ⟨hgs, hgcond.1 ▸ by simp [hgcond.2]⟩, rfl⟩)
      (getFact_of_mem hnodup hgs) ht
    obtain ⟨e, hemem, hematch⟩ := hex
    exact findExistingEvent_ne_none ht hemem hematch
  · intro f hfs hft hds
    have ht : optNatTruthy f.dealId = true := optNatTruthy_of hds (hdz f hfs)
    have hmemsnap : f.id ∈ linkedSnapshot s := by
      unfold linkedSnapshot
      rw [List.mem_map]
      refine ⟨f, ?_, rfl⟩
      rw [List.mem_filter]
      exact ⟨hfs, by simp [hft, hds]⟩
    have hle : (eventsFor (reconcileFinancingFacts s) f).length ≤ 1 :=
      foldLinked_count_le s hnodup f hfs (linkedSnapshot s) s rfl (hcount f hfs)
    have hge : 0 < (eventsFor (reconcileFinancingFacts s) f).length := by
      obtain ⟨e, hemem, hematch⟩ := foldLinked_attaches (linkedSnapshot s) s f hmemsnap
        (getFact_of_mem hnodup hfs) ht
      have hmemev : e ∈ eventsFor (reconcileFinancingFacts s) f := by
        unfold eventsFor
        rw [List.mem_filter]
        exact ⟨hemem, hematch⟩
      exact List.length_pos.mpr (List.ne_nil_of_mem hmemev)
    omega

/-- A store with one clustered FinancingMention fact and no events yet. -/
def c5Store : Store :=
  { facts := [{ id := 21, factType := FactType.financingMention, dealId := some 3,
                payload := { instrumentType := some ("bond".data), amountUsd := some 500000000 } }],
    deals := [], events := [], alerts := [], nextDealId := 4 }

theorem C5_financing_idempotent_witness :
    ((c5Store.facts.map (fun g => g.id)).Nodup) ∧
      (∀ f ∈ c5Store.facts, f.dealId ≠ some 0) ∧
      (∀ f ∈ c5Store.facts, (eventsFor c5Store f).length ≤ 1) ∧
    (reconcileFinancingFacts (reconcileFinancingFacts c5Store) =
        reconcileFinancingFacts c5Store ∧
      ∀ f ∈ c5Store.facts, f.factType = FactType.financingMention → f.dealId.isSome →
        (eventsFor (reconcileFinancingFacts c5Store) f).length = 1) :=
  ⟨by decide, by decide, by decide,
    C5_financing_idempotent c5Store (by decide) (by decide) (by decide)⟩

/-! ## Deal clustering service (`app/services/deal_clusterer.py`)

`fromisoformat` is an external stdlib call; it is abstracted as a
boolean parameter `isoOk` deciding parse success (a failed parse takes
the `except ValueError: pass` branch). -/

/-- Keys of `regex_pack.SPONSOR_SEED_LIST` (Tier-1 sponsor names). -/
def sponsorSeedKeys : List (List Char) :=
  [("blackstone".data), ("kkr".data), ("kohlberg kravis roberts".data),
   ("apollo".data), ("apollo global".data), ("carlyle".data),
   ("the carlyle group".data), ("thoma bravo".data), ("tpg".data),
   ("tpg capital".data), ("texas pacific group".data), ("advent".data),
   ("advent international".data), ("bain capital".data), ("warburg pincus".data),
   ("silver lake".data), ("vista equity".data), ("vista equity partners".data),
   ("clayton dubilier".data), ("clayton, dubilier & rice".data), ("cd&r".data),
   ("cvc".data), ("cvc capital".data), ("eqt".data), ("eqt partners".data),
   ("brookfield".data), ("brookfield asset management".data), ("permira".data),
   ("hellman & friedman".data), ("h&f".data), ("general atlantic".data),
   ("insight partners".data), ("providence equity".data), ("ares".data),
   ("ares management".data), ("apax".data), ("apax partners".data),
   ("cinven".data), ("pai partners".data), ("3g capital".data),
   ("sycamore partners".data), ("sycamore".data)]

def targetLabels : List (List Char) :=
  [("company".data), ("target".data), ("seller".data)]

def acquirerLabels : List (List Char) :=
  [("parent".data), ("buyer".data), ("purchaser".data), ("acquirer".data), ("acquiror".data)]

/-- `DealClusteringService._build_deal_key` (tier priority). -/
def buildDealKey (aCik : Option (List Char)) (aName : List Char)
    (tCik : Option (List Char)) (tName : List Char) : Option (List Char) :=
  if optStrTruthy aCik && optStrTruthy tCik then
    some ("cik:".data ++ aCik.getD [] ++ ":cik:".data ++ tCik.getD [])
  else if optStrTruthy aCik && !tName.isEmpty then
    some ("cik:".data ++ aCik.getD [] ++ ":name:".data ++ tName)
  else if !aName.isEmpty && !tName.isEmpty then
    some ("name:".data ++ aName ++ ":name:".data ++ tName)
  else none

/-- `DealClusteringService._find_related_party_facts`. -/
def findRelatedPartyFacts (s : Store) (fact : Fact) (labels : List (List Char)) :
    List Fact :=
  let base := s.facts.filter (fun f =>
    (f.factType == FactType.partyDefinition || f.factType == FactType.partyMention) &&
    !(f.id == fact.id))
  let located :=
    if optNatTruthy fact.exhibitId then base.filter (fun f => f.exhibitId == fact.exhibitId)
    else if optNatTruthy fact.filingId then base.filter (fun f => f.filingId == fact.filingId)
    else []
  located.filter (fun f => labels.contains (pyLower (f.payload.roleLabel.getD [])))

def getDealByKey (s : Store) (key : List Char) : Option Deal :=
  s.deals.find? (fun d => d.dealKey == some key)

def addAlert (s : Store) (a : Alert) : Store :=
  { s with alerts := s.alerts ++ [a] }

/-- The `LowConfidenceMatch` alert raised for a LOCKED deal in
`_handle_target_fact`. -/
def lockedAlert (fact : Fact) (existing : Deal) (targetNorm : List Char) : Alert :=
  { alertType := AlertType.lowConfidenceMatch
    dealId := some existing.id
    filingId := fact.filingId
    title := "New fact for locked deal: ".data ++ targetNorm
    description := "Deal is locked but new facts were found".data }

/-- Attach `existing.id` to every listed fact whose `deal_id` is still
NULL (the acquirer/target attach loops). -/
def attachFacts (s : Store) (ids : List Nat) (did : Nat) : Store :=
  { s with facts := s.facts.map (fun f =>
      if ids.contains f.id && f.dealId == none then { f with dealId := some did } else f) }

structure ClusterResult where
  attached : Bool := false
  dealCreated : Bool := false
  alertCreated : Bool := false
  deriving DecidableEq

/-- The new CANDIDATE deal built in `_handle_target_fact` (NEEDS_REVIEW
when the acquirer CIK is missing, i.e. the name-only key tier). -/
def mkNewDeal (s : Store) (fact af : Fact) (key : List Char) : Deal :=
  { id := s.nextDealId
    state := if optStrTruthy af.payload.cik then DealState.candidate else DealState.needsReview
    dealKey := some key
    acquirerCik := af.payload.cik
    acquirerNameNormalized := some (af.payload.partyNameNormalized.getD [])
    acquirerNameRaw := af.payload.partyNameRaw
    acquirerNameDisplay := af.payload.partyNameDisplay
    targetCik := fact.payload.cik
    targetNameNormalized := some (fact.payload.partyNameNormalized.getD [])
    targetNameRaw := fact.payload.partyNameRaw
    targetNameDisplay := fact.payload.partyNameDisplay }

/-- `DealClusteringService._handle_target_fact`. -/
def handleTargetFact (s : Store) (fact : Fact) : Store × ClusterResult :=
  match findRelatedPartyFacts s fact acquirerLabels with
  | [] => (s, {})
  | af :: rest =>
    match buildDealKey af.payload.cik (af.payload.partyNameNormalized.getD [])
        fact.payload.cik (fact.payload.partyNameNormalized.getD []) with
    | none => (s, {})
    | some key =>
      match getDealByKey s key with
      | some existing =>
        if existing.state == DealState.locked then
          (addAlert s (lockedAlert fact existing (fact.payload.partyNameNormalized.getD [])),
           { alertCreated := true })
        else
          (attachFacts (setFactDealId s fact.id existing.id)
            ((af :: rest).map (fun g => g.id)) existing.id,
           { attached := true })
      | none =>
        (attachFacts
          (setFactDealId
            { s with deals := s.deals ++ [mkNewDeal s fact af key],
                     nextDealId := s.nextDealId + 1 }
            fact.id s.nextDealId)
          ((af :: rest).map (fun g => g.id)) s.nextDealId,
         { attached := true, dealCreated := true })

/-- `DealClusteringService._handle_acquirer_fact` (never creates deals,
never alerts; attaches only to an existing non-LOCKED deal). -/
def handleAcquirerFact (s : Store) (fact : Fact) : Store × ClusterResult :=
  match findRelatedPartyFacts s fact targetLabels with
  | [] => (s, {})
  | tf :: rest =>
    match buildDealKey fact.payload.cik (fact.payload.partyNameNormalized.getD [])
        tf.payload.cik (tf.payload.partyNameNormalized.getD []) with
    | none => (s, {})
    | some key =>
      match getDealByKey s key with
      | none => (s, {})
      | some existing =>
        if existing.state == DealState.locked then (s, {})
        else
          (attachFacts (setFactDealId s fact.id existing.id)
            ((tf :: rest).map (fun g => g.id)) existing.id,
           { attached := true })

/-- `DealClusteringService._cluster_fact` role dispatch. -/
def clusterFact (s : Store) (fid : Nat) : Store × ClusterResult :=
  match getFact s fid with
  | none => (s, {})
  | some fact =>
    if (fact.payload.partyNameNormalized.getD []).isEmpty then (s, {})
    else if targetLabels.contains (pyLower (fact.payload.roleLabel.getD [])) then
      handleTargetFact s fact
    else if acquirerLabels.contains (pyLower (fact.payload.roleLabel.getD [])) then
      handleAcquirerFact s fact
    else (s, {})

/-- The unclustered party-fact snapshot of `cluster_unclustered_facts`. -/
def partySnapshot (s : Store) : List Nat :=
  ((s.facts.filter (fun f => f.dealId == none &&
    (f.factType == FactType.partyDefinition || f.factType == FactType.partyMention))).map
    (fun f => f.id))

/-- The primary clustering pass (store effect of the main fact loop). -/
def clusterPrimary (s : Store) : Store :=
  (partySnapshot s).foldl (fun t fid => (clusterFact t fid).1) s

/-- `DealClusteringService._find_deal_for_fact`: deal id of the first
clustered party fact in the same exhibit (else filing). -/
def findDealForFact (s : Store) (fact : Fact) : Option Nat :=
  let clustered := s.facts.filter (fun f => f.dealId.isSome &&
    (f.factType == FactType.partyDefinition || f.factType == FactType.partyMention))
  if optNatTruthy fact.exhibitId then
    ((clustered.filter (fun f => f.exhibitId == fact.exhibitId)).head?).bind (fun f => f.dealId)
  else if optNatTruthy fact.filingId then
    ((clustered.filter (fun f => f.filingId == fact.filingId)).head?).bind (fun f => f.dealId)
  else none

/-- The field mutation of `_update_deal_sponsor` on the fetched deal.
Note: the deal's state is NOT checked — LOCKED deals are updated too. -/
def sponsorUpdatedDeal (d : Deal) (fact : Fact) : Deal :=
  if !optStrTruthy d.sponsorNameNormalized ||
      pyOrRat d.sponsorConfidence 0 < pyOrRat fact.confidence (1/2) then
    { d with
      sponsorNameRaw := fact.payload.sponsorNameRaw
      sponsorNameNormalized := fact.payload.sponsorNameNormalized
      sponsorConfidence := some (pyOrRat fact.confidence (1/2))
      isSponsorBacked := true
      sponsorEvidence := some
        { factId := fact.id
          snippet := match fact.evidenceSnippet with
            | some ev => if ev.isEmpty then none else some (ev.take 500)
            | none => none
          pattern := fact.payload.sourcePattern }
      unresolvedSponsorEntity :=
        if optStrTruthy fact.payload.sponsorNameNormalized &&
            !(sponsorSeedKeys.contains (pyLower (fact.payload.sponsorNameNormalized.getD [])))
        then true else d.unresolvedSponsorEntity }
  else d

/-- Slot dispatch of `_update_deal_date` given the payload's
`date_type` and a present `date_value`. -/
def dateSlotUpdate (isoOk : List Char → Bool) (d : Deal)
    (dateType : Option (List Char)) (dv : List Char) : Deal :=
  if dv.isEmpty then d
  else if isoOk dv then
    if dateType == some ("agreement_date".data) && d.agreementDate == none then
      { d with agreementDate := some dv }
    else if dateType == some ("announcement_date".data) && d.announcementDate == none then
      { d with announcementDate := some dv }
    else if dateType == some ("expected_close".data) && d.expectedCloseDate == none then
      { d with expectedCloseDate := some dv }
    else d
  else d

/-- The field mutation of `_update_deal_date` (a date slot is filled
only when still null; a failed ISO parse changes nothing). -/
def dateUpdatedDeal (isoOk : List Char → Bool) (d : Deal) (fact : Fact) : Deal :=
  match fact.payload.dateValue with
  | none => d
  | some dv => dateSlotUpdate isoOk d fact.payload.dateType dv

/-- Apply an update function to the deal with id `did` (identity when no
such deal exists, matching the `if not deal: return` guard). -/
def updateDealField (s : Store) (did : Nat) (upd : Deal → Deal) : Store :=
  { s with deals := s.deals.map (fun d => if d.id == did then upd d else d) }

/-- The secondary snapshot of `_attach_secondary_facts`. -/
def secondarySnapshot (s : Store) : List Nat :=
  ((s.facts.filter (fun f => f.dealId == none &&
    (f.factType == FactType.sponsorMention || f.factType == FactType.dealDate ||
     f.factType == FactType.advisorMention || f.factType == FactType.financingMention))).map
    (fun f => f.id))

/-- One iteration of `_attach_secondary_facts`: attach by provenance and
update sponsor/date fields.  No LOCKED check appears anywhere on this
path. -/
def secondaryStep (isoOk : List Char → Bool) (s : Store) (fid : Nat) : Store :=
  match getFact s fid with
  | none => s
  | some fact =>
    match findDealForFact s fact with
    | none => s
    | some did =>
      if did == 0 then s
      else
        let s1 := setFactDealId s fid did
        let s2 := if fact.factType == FactType.sponsorMention then
            updateDealField s1 did (fun d => sponsorUpdatedDeal d fact) else s1
        if fact.factType == FactType.dealDate then
          updateDealField s2 did (fun d => dateUpdatedDeal isoOk d fact) else s2

/-- `DealClusteringService._attach_secondary_facts`. -/
def attachSecondaryFacts (isoOk : List Char → Bool) (s : Store) : Store :=
  (secondarySnapshot s).foldl (secondaryStep isoOk) s

/-- `DealClusteringService.cluster_unclustered_facts`: the primary
party-fact pass followed by the secondary pass. -/
def clusterUnclusteredFacts (isoOk : List Char → Bool) (s : Store) : Store :=
  attachSecondaryFacts isoOk (clusterPrimary s)

/-! ## C4: additive scoring and threshold gating of unlinked
reconciliation -/

/-- The target-name scoring rule as the specification words it (`ratio`
is the 0–100 partial-ratio over 100): exact substring adds 0.5, else a
fuzzy ratio above 0.85 adds `0.4 × ratio`. -/
def specTargetSig (pr : List Char → List Char → ℚ) (deal : Deal) (ev : List Char) : ℚ :=
  if optStrTruthy deal.targetNameNormalized then
    if hasSub (deal.targetNameNormalized.getD []) ev then 1/2
    else if 85/100 < pr (deal.targetNameNormalized.getD []) ev / 100 then
      (4/10) * (pr (deal.targetNameNormalized.getD []) ev / 100)
    else 0
  else 0

/-- Acquirer-name scoring rule per the spec: exact adds 0.3, else a
fuzzy ratio above 0.85 adds `0.2 × ratio`. -/
def specAcquirerSig (pr : List Char → List Char → ℚ) (deal : Deal) (ev : List Char) : ℚ :=
  if optStrTruthy deal.acquirerNameNormalized then
    if hasSub (deal.acquirerNameNormalized.getD []) ev then 3/10
    else if 85/100 < pr (deal.acquirerNameNormalized.getD []) ev / 100 then
      (2/10) * (pr (deal.acquirerNameNormalized.getD []) ev / 100)
    else 0
  else 0

/-- Sponsor-name scoring rule per the spec: exact adds 0.2, else a
fuzzy ratio above 0.80 adds `0.1 × ratio`. -/
def specSponsorSig (pr : List Char → List Char → ℚ) (deal : Deal) (ev : List Char) : ℚ :=
  if optStrTruthy deal.sponsorNameNormalized then
    if hasSub (deal.sponsorNameNormalized.getD []) ev then 2/10
    else if 80/100 < pr (deal.sponsorNameNormalized.getD []) ev / 100 then
      (1/10) * (pr (deal.sponsorNameNormalized.getD []) ev / 100)
    else 0
  else 0

/-- The specification's total: additive signals clamped at 1.0. -/
def specScore (pr : List Char → List Char → ℚ) (deal : Deal) (ev : List Char) : ℚ :=
  min 1 (specTargetSig pr deal ev + specAcquirerSig pr deal ev + specSponsorSig pr deal ev)

lemma lt_div_100_iff (a q : ℚ) : a/100 < q/100 ↔ a < q := by
  constructor <;> intro h <;> linarith

lemma targetSignal_eq_spec (pr : List Char → List Char → ℚ) (deal : Deal) (ev : List Char) :
    (targetSignal pr deal ev).1 = specTargetSig pr deal ev := by
  unfold targetSignal specTargetSig
  simp only [lt_div_100_iff]
  split_ifs <;> norm_num

lemma sponsorSignal_eq_spec (pr : List Char → List Char → ℚ) (deal : Deal) (ev : List Char) :
    (sponsorSignal pr deal ev).1 = specSponsorSig pr deal ev := by
  unfold sponsorSignal specSponsorSig
  simp only [lt_div_100_iff]
  split_ifs <;> norm_num

lemma acquirerSignal_eq_spec (pr : List Char → List Char → ℚ) (deal : Deal) (ev : List Char) :
    (acquirerSignal pr deal ev).1 = specAcquirerSig pr deal ev := by
  unfold acquirerSignal specAcquirerSig
  simp only [lt_div_100_iff]
  split_ifs <;> norm_num

/-- The code's confidence equals the spec's additive clamped score. -/
lemma scoreDealMatch_eq_specScore (pr : List Char → List Char → ℚ)
    (deal : Deal) (ev : List Char) :
    (scoreDealMatch pr deal ev).confidence = specScore pr deal ev := by
  unfold scoreDealMatch specScore
  simp only []
  rw [targetSignal_eq_spec, sponsorSignal_eq_spec, acquirerSignal_eq_spec, min_comm]
  congr 1
  ring

/-- The running best score is the running maximum of the candidate
scores. -/
lemma bestFold_snd (pr : List Char → List Char → ℚ) (ev : List Char) :
    ∀ (ds : List Deal) (acc : Option RecMatch × ℚ),
      (ds.foldl (bestStep pr ev) acc).2 =
        (ds.map (fun d => (scoreDealMatch pr d ev).confidence)).foldl max acc.2 := by
  intro ds
  induction ds with
  | nil => intro acc; rfl
  | cons d rest ih =>
    intro acc
    rw [List.foldl_cons, List.map_cons, List.foldl_cons, ih]
    congr 1
    unfold bestStep
    split_ifs with h
    · exact (max_eq_right (le_of_lt h)).symm
    · exact (max_eq_left (not_lt.mp h)).symm

lemma bestFold_fst_ne_none (pr : List Char → List Char → ℚ) (ev : List Char) :
    ∀ (ds : List Deal) (acc : Option RecMatch × ℚ), acc.1 ≠ none →
      (ds.foldl (bestStep pr ev) acc).1 ≠ none := by
  intro ds
  induction ds with
  | nil => intro acc h; exact h
  | cons d rest ih =>
    intro acc h
    rw [List.foldl_cons]
    apply ih
    unfold bestStep
    split_ifs
    · simp
    · exact h

lemma bestFold_fst_none_iff (pr : List Char → List Char → ℚ) (ev : List Char) :
    ∀ (ds : List Deal) (acc : Option RecMatch × ℚ),
      ((ds.foldl (bestStep pr ev) acc).1 = none ↔
        acc.1 = none ∧ ∀ d ∈ ds, (scoreDealMatch pr d ev).confidence ≤ acc.2) := by
  intro ds
  induction ds with
  | nil => intro acc; simp
  | cons d rest ih =>
    intro acc
    rw [List.foldl_cons]
    by_cases h : acc.2 < (scoreDealMatch pr d ev).confidence
    · rw [show bestStep pr ev acc d =
          (some (scoreDealMatch pr d ev), (scoreDealMatch pr d ev).confidence) from by
        unfold bestStep; rw [if_pos h]]
      constructor
      · intro hfold
        exact absurd hfold (bestFold_fst_ne_none pr ev rest _ (by simp))
      · rintro ⟨_, hall⟩
        exact absurd (hall d (List.mem_cons_self d rest)) (not_le.mpr h)
    · rw [show bestStep pr ev acc d = acc from by unfold bestStep; rw [if_neg h]]
      rw [ih]
      constructor
      · rintro ⟨h1, h2⟩
        refine ⟨h1, fun d' hd' => ?_⟩
        rcases List.mem_cons.mp hd' with rfl | hm
        · exact not_lt.mp h
        · exact h2 d' hm
      · rintro ⟨h1, h2⟩
        exact ⟨h1, fun d' hd' => h2 d' (List.mem_cons_of_mem d hd')⟩

/-- When the fold produced a best match, the running score is its
confidence. -/
lemma bestFold_fst_conf (pr : List Char → List Char → ℚ) (ev : List Char) :
    ∀ (ds : List Deal) (acc : Option RecMatch × ℚ),
      (∀ m₀, acc.1 = some m₀ → acc.2 = m₀.confidence) →
      ∀ m, (ds.foldl (bestStep pr ev) acc).1 = some m →
        (ds.foldl (bestStep pr ev) acc).2 = m.confidence := by
  intro ds
  induction ds with
  | nil => intro acc hinv m hm; exact hinv m hm
  | cons d rest ih =>
    intro acc hinv m hm
    rw [List.foldl_cons] at hm ⊢
    apply ih _ ?_ m hm
    unfold bestStep
    split_ifs
    · intro m₀ h₀
      simp only [Option.some_inj] at h₀
      rw [h₀]
    · exact hinv

/-- The best match, when produced, is the score of one of the candidate
deals. -/
lemma bestFold_fst_mem (pr : List Char → List Char → ℚ) (ev : List Char) :
    ∀ (ds : List Deal) (acc : Option RecMatch × ℚ) (m : RecMatch),
      (ds.foldl (bestStep pr ev) acc).1 = some m →
      acc.1 = some m ∨ ∃ d ∈ ds, m = scoreDealMatch pr d ev := by
  intro ds
  induction ds with
  | nil => intro acc m hm; exact Or.inl hm
  | cons d rest ih =>
    intro acc m hm
    rw [List.foldl_cons] at hm
    rcases ih _ m hm with hacc | ⟨d', hd', rfl⟩
    · unfold bestStep at hacc
      split_ifs at hacc
      · simp only [Option.some_inj] at hacc
        exact Or.inr ⟨d, List.mem_cons_self d rest, hacc.symm⟩
      · exact Or.inl hacc
    · exact Or.inr ⟨d', List.mem_cons_of_mem d hd', rfl⟩

lemma le_foldl_max_iff (c : ℚ) (hc : 0 < c) :
    ∀ (l : List ℚ) (a : ℚ), (c ≤ l.foldl max a ↔ c ≤ a ∨ ∃ x ∈ l, c ≤ x) := by
  intro l
  induction l with
  | nil => intro a; simp
  | cons x xs ih =>
    intro a
    rw [List.foldl_cons, ih]
    constructor
    · rintro (h | ⟨y, hy, hcy⟩)
      · rcases le_max_iff.mp h with h' | h'
        · exact Or.inl h'
        · exact Or.inr ⟨x, List.mem_cons_self x xs, h'⟩
      · exact Or.inr ⟨y, List.mem_cons_of_mem x hy, hcy⟩
    · rintro (h | ⟨y, hy, hcy⟩)
      · exact Or.inl (le_max_of_le_left h)
      · rcases List.mem_cons.mp hy with rfl | hm
        · exact Or.inl (le_max_of_le_right hcy)
        · exact Or.inr ⟨y, hm, hcy⟩

lemma findBest_some_case (pr : List Char → List Char → ℚ) (minConf : ℚ)
    (s : Store) (f : Fact) (m : RecMatch)
    (hfst : (bestFolded pr (pyLower (f.evidenceSnippet.getD [])) (candidateDeals s)).1 = some m) :
    findBestDealMatch pr minConf s f =
      if minConf ≤ (bestFolded pr (pyLower (f.evidenceSnippet.getD [])) (candidateDeals s)).2
      then some m else none := by
  unfold findBestDealMatch
  rw [hfst]

lemma findBest_none_case (pr : List Char → List Char → ℚ) (minConf : ℚ)
    (s : Store) (f : Fact)
    (hfst : (bestFolded pr (pyLower (f.evidenceSnippet.getD [])) (candidateDeals s)).1 = none) :
    findBestDealMatch pr minConf s f = none := by
  unfold findBestDealMatch
  rw [hfst]

/-- With a positive threshold, `_find_best_deal_match` succeeds exactly
when some CANDIDATE/OPEN deal scores at least `min_confidence`, and the
returned match is such a deal's score at the best value. -/
lemma findBestDealMatch_spec (pr : List Char → List Char → ℚ) (minConf : ℚ)
    (hmc : 0 < minConf) (s : Store) (f : Fact) :
    ((findBestDealMatch pr minConf s f).isSome ↔
      ∃ d ∈ candidateDeals s, minConf ≤
        (scoreDealMatch pr d (pyLower (f.evidenceSnippet.getD []))).confidence) ∧
    (∀ m, findBestDealMatch pr minConf s f = some m →
      minConf ≤ m.confidence ∧
      ∃ d ∈ candidateDeals s, m = scoreDealMatch pr d (pyLower (f.evidenceSnippet.getD []))) := by
  have hsnd : (bestFolded pr (pyLower (f.evidenceSnippet.getD [])) (candidateDeals s)).2 =
      ((candidateDeals s).map
        (fun d => (scoreDealMatch pr d (pyLower (f.evidenceSnippet.getD []))).confidence)).foldl max 0 := by
    unfold bestFolded
    rw [bestFold_snd]
  constructor
  · cases hfst : (bestFolded pr (pyLower (f.evidenceSnippet.getD [])) (candidateDeals s)).1 with
    | none =>
      rw [findBest_none_case pr minConf s f hfst]
      simp only [Option.isSome_none, Bool.false_eq_true, false_iff]
      rintro ⟨d, hd, hscore⟩
      have hnone := (bestFold_fst_none_iff pr _ (candidateDeals s) (none, 0)).mp hfst
      have := hnone.2 d hd
      exact absurd (le_trans hscore this) (not_le.mpr hmc)
    | some m =>
      rw [findBest_some_case pr minConf s f m hfst]
      by_cases hth : minConf ≤ (bestFolded pr (pyLower (f.evidenceSnippet.getD [])) (candidateDeals s)).2
      · rw [if_pos hth]
        simp only [Option.isSome_some, true_iff]
        rw [hsnd] at hth
        rcases (le_foldl_max_iff minConf hmc _ 0).mp hth with h0 | ⟨x, hx, hcx⟩
        · exact absurd h0 (not_le.mpr hmc)
        · rw [List.mem_map] at hx
          obtain ⟨d, hd, rfl⟩ := hx
          exact ⟨d, hd, hcx⟩
      · rw [if_neg hth]
        simp only [Option.isSome_none, Bool.false_eq_true, false_iff]
        rintro ⟨d, hd, hscore⟩
        apply hth
        rw [hsnd]
        exact (le_foldl_max_iff minConf hmc _ 0).mpr
          (Or.inr ⟨_, List.mem_map_of_mem _ hd, hscore⟩)
  · intro m hm
    cases hfst : (bestFolded pr (pyLower (f.evidenceSnippet.getD [])) (candidateDeals s)).1 with
    | none => rw [findBest_none_case pr minConf s f hfst] at hm; cases hm
    | some m' =>
      rw [findBest_some_case pr minConf s f m' hfst] at hm
      split_ifs at hm with hth
      · simp only [Option.some_inj] at hm
        subst hm
        have hconf := bestFold_fst_conf pr (pyLower (f.evidenceSnippet.getD []))
          (candidateDeals s) (none, 0) (by simp) m' hfst
        refine ⟨by rw [← hconf]; exact hth, ?_⟩
        rcases bestFold_fst_mem pr (pyLower (f.evidenceSnippet.getD []))
          (candidateDeals s) (none, 0) m' hfst with habs | hmem
        · cases habs
        · exact hmem

lemma findBestDealMatch_some_conf (pr : List Char → List Char → ℚ) (minConf : ℚ)
    (s : Store) (f : Fact) (m : RecMatch)
    (hm : findBestDealMatch pr minConf s f = some m) : minConf ≤ m.confidence := by
  cases hfst : (bestFolded pr (pyLower (f.evidenceSnippet.getD [])) (candidateDeals s)).1 with
  | none => rw [findBest_none_case pr minConf s f hfst] at hm; cases hm
  | some m' =>
    rw [findBest_some_case pr minConf s f m' hfst] at hm
    split_ifs at hm with hth
    · simp only [Option.some_inj] at hm
      subst hm
      have hconf := bestFold_fst_conf pr (pyLower (f.evidenceSnippet.getD []))
        (candidateDeals s) (none, 0) (by simp) m' hfst
      rw [← hconf]
      exact hth

lemma getFact_id {s : Store} {fid : Nat} {f : Fact} (h : getFact s fid = some f) :
    f.id = fid := by
  have := List.find?_some h
  simpa using this

/-- `findBestDealMatch` reads only the deal table and the fact itself. -/
lemma findBest_congr {t s : Store} (h : t.deals = s.deals)
    (pr : List Char → List Char → ℚ) (minConf : ℚ) (f : Fact) :
    findBestDealMatch pr minConf t f = findBestDealMatch pr minConf s f := by
  unfold findBestDealMatch bestFolded candidateDeals
  rw [h]

lemma find?_map_setDeal (l : List Fact) (fid d fid' : Nat) :
    ((l.map (fun f => if f.id == fid then { f with dealId := some d } else f)).find?
      (fun f => f.id == fid')) =
    (l.find? (fun f => f.id == fid')).map
      (fun f => if f.id == fid then { f with dealId := some d } else f) := by
  induction l with
  | nil => rfl
  | cons a t ih =>
    have hid : (if a.id == fid then { a with dealId := some d } else a).id = a.id := by
      split_ifs <;> rfl
    by_cases h : (a.id == fid') = true
    · simp only [List.map_cons, List.find?, hid, h]
      rfl
    · simp only [List.map_cons, List.find?, hid, h]
      exact ih

lemma getFact_setFactDealId_self {s : Store} {fid : Nat} {f : Fact} (d : Nat)
    (h : getFact s fid = some f) :
    getFact (setFactDealId s fid d) fid = some { f with dealId := some d } := by
  unfold getFact setFactDealId
  simp only []
  rw [find?_map_setDeal]
  unfold getFact at h
  rw [h]
  have hfid : f.id = fid := getFact_id h
  simp [hfid]

lemma getFact_setFactDealId_other {s : Store} {fid : Nat} (d : Nat) {fid' : Nat}
    (hne : fid' ≠ fid) :
    getFact (setFactDealId s fid d) fid' = getFact s fid' := by
  unfold getFact setFactDealId
  simp only []
  rw [find?_map_setDeal]
  cases h : s.facts.find? (fun f => f.id == fid') with
  | none => rfl
  | some f =>
    have hfid : f.id = fid' := by
      have := List.find?_some h
      simpa using this
    simp [hfid, hne]

/-- Case analysis of one `reconcile_unlinked_financing` iteration. -/
lemma reconcileUnlinkedStep_eq (pr : List Char → List Char → ℚ) (minConf : ℚ)
    (sk : Store × Nat) (fid : Nat) :
    (getFact sk.1 fid = none ∧ reconcileUnlinkedStep pr minConf sk fid = sk) ∨
    (∃ f, getFact sk.1 fid = some f ∧ findBestDealMatch pr minConf sk.1 f = none ∧
      reconcileUnlinkedStep pr minConf sk fid = (sk.1, sk.2 + 1)) ∨
    (∃ f m e, getFact sk.1 fid = some f ∧ findBestDealMatch pr minConf sk.1 f = some m ∧
      createFinancingEvent { f with dealId := some m.dealId } (some m) = some e ∧
      reconcileUnlinkedStep pr minConf sk fid =
        ({ setFactDealId sk.1 fid m.dealId with
            events := (setFactDealId sk.1 fid m.dealId).events ++ [e] }, sk.2)) ∨
    (∃ f m, getFact sk.1 fid = some f ∧ findBestDealMatch pr minConf sk.1 f = some m ∧
      createFinancingEvent { f with dealId := some m.dealId } (some m) = none ∧
      reconcileUnlinkedStep pr minConf sk fid = (setFactDealId sk.1 fid m.dealId, sk.2)) := by
  cases h1 : getFact sk.1 fid with
  | none =>
    exact Or.inl ⟨rfl, by simp [reconcileUnlinkedStep, h1]⟩
  | some f =>
    cases h2 : findBestDealMatch pr minConf sk.1 f with
    | none =>
      exact Or.inr (Or.inl ⟨f, rfl, h2, by simp [reconcileUnlinkedStep, h1, h2]⟩)
    | some m =>
      have hth : minConf ≤ m.confidence := findBestDealMatch_some_conf pr minConf sk.1 f m h2
      have hget1 : getFact (setFactDealId sk.1 fid m.dealId) fid =
          some { f with dealId := some m.dealId } :=
        getFact_setFactDealId_self m.dealId h1
      cases h3 : createFinancingEvent { f with dealId := some m.dealId } (some m) with
      | none =>
        refine Or.inr (Or.inr (Or.inr ⟨f, m, rfl, h2, h3, ?_⟩))
        simp [reconcileUnlinkedStep, h1, h2, if_pos hth, hget1, h3]
      | some e =>
        refine Or.inr (Or.inr (Or.inl ⟨f, m, e, rfl, h2, h3, ?_⟩))
        simp [reconcileUnlinkedStep, h1, h2, if_pos hth, hget1, h3]

lemma setFactDealId_deals (s : Store) (fid d : Nat) :
    (setFactDealId s fid d).deals = s.deals := rfl

lemma setFactDealId_events (s : Store) (fid d : Nat) :
    (setFactDealId s fid d).events = s.events := rfl

lemma unlinkedStep_deals (pr : List Char → List Char → ℚ) (minConf : ℚ)
    (sk : Store × Nat) (fid : Nat) :
    (reconcileUnlinkedStep pr minConf sk fid).1.deals = sk.1.deals := by
  rcases reconcileUnlinkedStep_eq pr minConf sk fid with ⟨_, h⟩ | ⟨f, _, _, h⟩ |
    ⟨f, m, e, _, _, _, h⟩ | ⟨f, m, _, _, _, h⟩ <;> rw [h] <;> rfl

lemma unlinkedStep_events_mem (pr : List Char → List Char → ℚ) (minConf : ℚ)
    (sk : Store × Nat) (fid : Nat) {e : FinEvent} (he : e ∈ sk.1.events) :
    e ∈ (reconcileUnlinkedStep pr minConf sk fid).1.events := by
  rcases reconcileUnlinkedStep_eq pr minConf sk fid with ⟨_, h⟩ | ⟨f, _, _, h⟩ |
    ⟨f, m, e', _, _, _, h⟩ | ⟨f, m, _, _, _, h⟩ <;> rw [h] <;>
    first
      | exact he
      | exact List.mem_append_left _ he

lemma unlinkedStep_getFact_other (pr : List Char → List Char → ℚ) (minConf : ℚ)
    (sk : Store × Nat) (fid : Nat) {fid' : Nat} (hne : fid' ≠ fid) :
    getFact (reconcileUnlinkedStep pr minConf sk fid).1 fid' = getFact sk.1 fid' := by
  rcases reconcileUnlinkedStep_eq pr minConf sk fid with ⟨_, h⟩ | ⟨f, _, _, h⟩ |
    ⟨f, m, e', _, _, _, h⟩ | ⟨f, m, _, _, _, h⟩ <;> rw [h] <;>
    first
      | rfl
      | exact getFact_setFactDealId_other m.dealId hne

lemma unlinkedFold_events_mem (pr : List Char → List Char → ℚ) (minConf : ℚ)
    (ids : List Nat) :
    ∀ (sk : Store × Nat) (e : FinEvent), e ∈ sk.1.events →
      e ∈ (ids.foldl (reconcileUnlinkedStep pr minConf) sk).1.events := by
  induction ids with
  | nil => intro sk e he; exact he
  | cons i is ih =>
    intro sk e he
    rw [List.foldl_cons]
    exact ih _ e (unlinkedStep_events_mem pr minConf sk i he)

lemma createFinancingEvent_fields {f : Fact} {m : RecMatch} {e : FinEvent}
    (he : createFinancingEvent f (some m) = some e) :
    e.sourceFactIds = [f.id] ∧ e.reconciliationConfidence = m.confidence := by
  unfold createFinancingEvent at he
  split at he
  · exact absurd he (by simp)
  · cases he
    exact ⟨rfl, rfl⟩

/-- Was a fact counted in `low_confidence_skipped`:  it exists and no
candidate deal reached the threshold. -/
def skippedB (pr : List Char → List Char → ℚ) (minConf : ℚ) (s : Store)
    (fid : Nat) : Bool :=
  match getFact s fid with
  | none => false
  | some f => (findBestDealMatch pr minConf s f).isNone

/-- Per-fact outcome of the unlinked reconciliation run. -/
def unlinkedOutcome (pr : List Char → List Char → ℚ) (minConf : ℚ)
    (s t' : Store) (fid : Nat) (f : Fact) : Prop :=
  match findBestDealMatch pr minConf s f with
  | some m =>
    getFact t' fid = some { f with dealId := some m.dealId } ∧
    (m.dealId ≠ 0 → ∃ e ∈ t'.events, e.sourceFactIds = [fid] ∧
      e.reconciliationConfidence = m.confidence)
  | none => getFact t' fid = getFact s fid

/-- Invariant of the `reconcile_unlinked_financing` fold: deals are
untouched, unvisited facts are untouched, appended events come from
matched visited facts, the skip counter counts unmatched facts, and
every visited fact reaches its outcome. -/
lemma unlinkedFold_spec (pr : List Char → List Char → ℚ) (minConf : ℚ) (s : Store) :
    ∀ (ids : List Nat) (t : Store) (k : Nat),
      t.deals = s.deals →
      ids.Nodup →
      (∀ fid ∈ ids, getFact t fid = getFact s fid) →
      ((ids.foldl (reconcileUnlinkedStep pr minConf) (t, k)).1.deals = s.deals ∧
       (∀ fid' : Nat, fid' ∉ ids →
         getFact (ids.foldl (reconcileUnlinkedStep pr minConf) (t, k)).1 fid' =
           getFact t fid') ∧
       (∀ e ∈ (ids.foldl (reconcileUnlinkedStep pr minConf) (t, k)).1.events,
         e ∈ t.events ∨ ∃ fid ∈ ids, ∃ f m, getFact s fid = some f ∧
           findBestDealMatch pr minConf s f = some m ∧ e.sourceFactIds = [fid]) ∧
       (ids.foldl (reconcileUnlinkedStep pr minConf) (t, k)).2 =
         k + ids.countP (skippedB pr minConf s) ∧
       (∀ fid ∈ ids, ∀ f, getFact s fid = some f →
         unlinkedOutcome pr minConf s
           (ids.foldl (reconcileUnlinkedStep pr minConf) (t, k)).1 fid f)) := by
  intro ids
  induction ids with
  | nil =>
    intro t k hdeals _ _
    refine ⟨hdeals, fun fid' _ => rfl, fun e he => Or.inl he, by simp, ?_⟩
    intro fid hfid
    cases hfid
  | cons i is ih =>
    intro t k hdeals hnodup hsame
    rw [List.nodup_cons] at hnodup
    obtain ⟨hinotin, hnodup'⟩ := hnodup
    rw [List.foldl_cons]
    -- facts about the head step
    have hgeti : getFact t i = getFact s i := hsame i (List.mem_cons_self i is)
    have hdeals1 : (reconcileUnlinkedStep pr minConf (t, k) i).1.deals = s.deals := by
      rw [unlinkedStep_deals]; exact hdeals
    have hsame1 : ∀ fid ∈ is, getFact (reconcileUnlinkedStep pr minConf (t, k) i).1 fid =
        getFact s fid := by
      intro fid hfid
      rw [unlinkedStep_getFact_other pr minConf (t, k) i
        (fun hcontra => hinotin (hcontra ▸ hfid))]
      exact hsame fid (List.mem_cons_of_mem i hfid)
    obtain ⟨ihdeals, ihframe, ihevents, ihsnd, ihout⟩ :=
      ih (reconcileUnlinkedStep pr minConf (t, k) i).1
        (reconcileUnlinkedStep pr minConf (t, k) i).2 hdeals1 hnodup' hsame1
    simp only [Prod.mk.eta] at ihdeals ihframe ihevents ihsnd ihout
    -- analyze the head step
    rcases reconcileUnlinkedStep_eq pr minConf (t, k) i with
      ⟨hnone, hstep⟩ | ⟨f, hget, hbest, hstep⟩ |
      ⟨f, m, e, hget, hbest, hce, hstep⟩ | ⟨f, m, hget, hbest, hce, hstep⟩
    -- case A: no such fact
    · have hsnone : getFact s i = none := hgeti ▸ hnone
      have hskip : skippedB pr minConf s i = false := by
        unfold skippedB
        rw [hsnone]
      refine ⟨ihdeals, ?_, ?_, ?_, ?_⟩
      · intro fid' hfid'
        rw [ihframe fid' (fun hmem => hfid' (List.mem_cons_of_mem i hmem)), hstep]
      · intro e he
        rcases ihevents e he with hin | ⟨fid, hfid, f, m, h1, h2, h3⟩
        · rw [hstep] at hin
          exact Or.inl hin
        · exact Or.inr ⟨fid, List.mem_cons_of_mem i hfid, f, m, h1, h2, h3⟩
      · rw [ihsnd, hstep]
        simp [List.countP_cons, hskip]
      · intro fid hfid f hgetf
        rcases List.mem_cons.mp hfid with rfl | hmem
        · rw [hsnone] at hgetf
          cases hgetf
        · exact ihout fid hmem f hgetf
    -- case B: fact found, no qualifying match (skipped)
    · have hgets : getFact s i = some f := hgeti ▸ hget
      have hbests : findBestDealMatch pr minConf s f = none := by
        rw [← findBest_congr hdeals pr minConf f]
        exact hbest
      have hskip : skippedB pr minConf s i = true := by
        unfold skippedB
        rw [hgets]
        show (findBestDealMatch pr minConf s f).isNone = true
        rw [hbests]
        rfl
      refine ⟨ihdeals, ?_, ?_, ?_, ?_⟩
      · intro fid' hfid'
        rw [ihframe fid' (fun hmem => hfid' (List.mem_cons_of_mem i hmem)), hstep]
      · intro e he
        rcases ihevents e he with hin | ⟨fid, hfid, f', m', h1, h2, h3⟩
        · rw [hstep] at hin
          exact Or.inl hin
        · exact Or.inr ⟨fid, List.mem_cons_of_mem i hfid, f', m', h1, h2, h3⟩
      · rw [ihsnd, hstep]
        simp [List.countP_cons, hskip]
        omega
      · intro fid hfid f' hgetf
        rcases List.mem_cons.mp hfid with rfl | hmem
        · have hff : f' = f := by
            rw [hgets] at hgetf
            exact (Option.some_injective _ hgetf).symm
          subst hff
          unfold unlinkedOutcome
          rw [hbests]
          rw [ihframe fid hinotin, hstep]
          exact hgeti
        · exact ihout fid hmem f' hgetf
    -- case C: matched, event created
    · have hgets : getFact s i = some f := hgeti ▸ hget
      have hbests : findBestDealMatch pr minConf s f = some m := by
        rw [← findBest_congr hdeals pr minConf f]
        exact hbest
      have hskip : skippedB pr minConf s i = false := by
        unfold skippedB
        rw [hgets]
        show (findBestDealMatch pr minConf s f).isNone = false
        rw [hbests]
        rfl
      have hfid_i : f.id = i := getFact_id hgets
      obtain ⟨hesrc, heconf⟩ := createFinancingEvent_fields hce
      refine ⟨ihdeals, ?_, ?_, ?_, ?_⟩
      · intro fid' hfid'
        rw [ihframe fid' (fun hmem => hfid' (List.mem_cons_of_mem i hmem)), hstep]
        exact getFact_setFactDealId_other m.dealId
          (fun hcontra => hfid' (hcontra ▸ List.mem_cons_self i is))
      · intro e' he'
        rcases ihevents e' he' with hin | ⟨fid, hfid, f', m', h1, h2, h3⟩
        · rw [hstep] at hin
          rcases List.mem_append.mp hin with hin' | hin'
          · exact Or.inl hin'
          · have : e' = e := List.mem_singleton.mp hin'
            subst this
            exact Or.inr ⟨i, List.mem_cons_self i is, f, m, hgets, hbests,
              by rw [hesrc]; simp [hfid_i]⟩
        · exact Or.inr ⟨fid, List.mem_cons_of_mem i hfid, f', m', h1, h2, h3⟩
      · rw [ihsnd, hstep]
        simp [List.countP_cons, hskip]
      · intro fid hfid f' hgetf
        rcases List.mem_cons.mp hfid with rfl | hmem
        · have hff : f' = f := by
            rw [hgets] at hgetf
            exact (Option.some_injective _ hgetf).symm
          subst hff
          unfold unlinkedOutcome
          rw [hbests]
          constructor
          · rw [ihframe fid hinotin, hstep]
            show getFact { setFactDealId t fid m.dealId with
              events := (setFactDealId t fid m.dealId).events ++ [e] } fid =
              some { f' with dealId := some m.dealId }
            have : getFact { setFactDealId t fid m.dealId with
                events := (setFactDealId t fid m.dealId).events ++ [e] } fid =
                getFact (setFactDealId t fid m.dealId) fid := rfl
            rw [this]
            exact getFact_setFactDealId_self m.dealId hget
          · intro _
            refine ⟨e, ?_, by rw [hesrc]; simp [hfid_i], heconf⟩
            apply unlinkedFold_events_mem
            rw [hstep]
            exact List.mem_append_right _ (List.mem_singleton.mpr rfl)
        · exact ihout fid hmem f' hgetf
    -- case D: matched but deal id 0, no event possible
    · have hgets : getFact s i = some f := hgeti ▸ hget
      have hbests : findBestDealMatch pr minConf s f = some m := by
        rw [← findBest_congr hdeals pr minConf f]
        exact hbest
      have hskip : skippedB pr minConf s i = false := by
        unfold skippedB
        rw [hgets]
        show (findBestDealMatch pr minConf s f).isNone = false
        rw [hbests]
        rfl
      have hdz : m.dealId = 0 := by
        unfold createFinancingEvent at hce
        by_cases hz : m.dealId = 0
        · exact hz
        · rw [if_neg (by simp [optNatTruthy, hz])] at hce
          cases hce
      refine ⟨ihdeals, ?_, ?_, ?_, ?_⟩
      · intro fid' hfid'
        rw [ihframe fid' (fun hmem => hfid' (List.mem_cons_of_mem i hmem)), hstep]
        exact getFact_setFactDealId_other m.dealId
          (fun hcontra => hfid' (hcontra ▸ List.mem_cons_self i is))
      · intro e' he'
        rcases ihevents e' he' with hin | ⟨fid, hfid, f', m', h1, h2, h3⟩
        · rw [hstep] at hin
          exact Or.inl hin
        · exact Or.inr ⟨fid, List.mem_cons_of_mem i hfid, f', m', h1, h2, h3⟩
      · rw [ihsnd, hstep]
        simp [List.countP_cons, hskip]
      · intro fid hfid f' hgetf
        rcases List.mem_cons.mp hfid with rfl | hmem
        · have hff : f' = f := by
            rw [hgets] at hgetf
            exact (Option.some_injective _ hgetf).symm
          subst hff
          unfold unlinkedOutcome
          rw [hbests]
          constructor
          · rw [ihframe fid hinotin, hstep]
            exact getFact_setFactDealId_self m.dealId hget
          · intro hne
            exact absurd hdz hne
        · exact ihout fid hmem f' hgetf

/-- C4: unlinked financing facts are scored additively over each
CANDIDATE/OPEN deal (target exact +0.5 / fuzzy > 0.85 adds 0.4·ratio;
acquirer +0.3 / 0.2·ratio; sponsor +0.2 / fuzzy > 0.80 adds 0.1·ratio;
clamped at 1.0), and a fact is attached with a materialized event at the
computed confidence iff some candidate reaches `min_confidence`;
otherwise it is left unchanged and counted as `low_confidence_skipped`. -/
theorem C4_unlinked_reconciliation (pr : List Char → List Char → ℚ) (minConf : ℚ)
    (s : Store) (hmc : 0 < minConf)
    (hnodup : (s.facts.map (fun g => g.id)).Nodup)
    (hdid : ∀ d ∈ s.deals, d.id ≠ 0) :
    (∀ deal ev, (scoreDealMatch pr deal ev).confidence = specScore pr deal ev) ∧
    (∀ f ∈ s.facts, f.factType = FactType.financingMention → f.dealId = none →
      ((∃ d ∈ candidateDeals s, minConf ≤
          (scoreDealMatch pr d (pyLower (f.evidenceSnippet.getD []))).confidence) →
        ∃ m, findBestDealMatch pr minConf s f = some m ∧
          getFact (reconcileUnlinkedFinancing pr minConf s).1 f.id =
            some { f with dealId := some m.dealId } ∧
          ∃ e ∈ (reconcileUnlinkedFinancing pr minConf s).1.events,
            e.sourceFactIds = [f.id] ∧ e.reconciliationConfidence = m.confidence) ∧
      ((¬ ∃ d ∈ candidateDeals s, minConf ≤
          (scoreDealMatch pr d (pyLower (f.evidenceSnippet.getD []))).confidence) →
        getFact (reconcileUnlinkedFinancing pr minConf s).1 f.id = some f ∧
        ∀ e ∈ (reconcileUnlinkedFinancing pr minConf s).1.events,
          e ∈ s.events ∨ f.id ∉ e.sourceFactIds)) ∧
    (reconcileUnlinkedFinancing pr minConf s).2 =
      ((unlinkedSnapshot s).filter (skippedB pr minConf s)).length := by
  have hsnapnodup : (unlinkedSnapshot s).Nodup := by
    unfold unlinkedSnapshot
    exact List.Nodup.sublist (List.Sublist.map _ (List.filter_sublist _)) hnodup
  obtain ⟨hdeals', hframe, hevents, hsnd, hout⟩ :=
    unlinkedFold_spec pr minConf s (unlinkedSnapshot s) s 0 rfl hsnapnodup
      (fun _ _ => rfl)
  refine ⟨fun deal ev => scoreDealMatch_eq_specScore pr deal ev, ?_, ?_⟩
  · intro f hf hft hdn
    have hfidmem : f.id ∈ unlinkedSnapshot s := by
      unfold unlinkedSnapshot
      rw [List.mem_map]
      refine ⟨f, ?_, rfl⟩
      rw [List.mem_filter]
      exact ⟨hf, by simp [hft, hdn]⟩
    have hget : getFact s f.id = some f := getFact_of_mem hnodup hf
    have hout_f := hout f.id hfidmem f hget
    constructor
    · intro hex
      have hsome : (findBestDealMatch pr minConf s f).isSome :=
        ((findBestDealMatch_spec pr minConf hmc s f).1).mpr hex
      obtain ⟨m, hm⟩ := Option.isSome_iff_exists.mp hsome
      unfold unlinkedOutcome at hout_f
      rw [hm] at hout_f
      obtain ⟨h1, h2⟩ := hout_f
      refine ⟨m, hm, h1, ?_⟩
      obtain ⟨hconf_ge, d, hd, hmd⟩ := (findBestDealMatch_spec pr minConf hmc s f).2 m hm
      have hmid : m.dealId = d.id := by rw [hmd]; rfl
      exact h2 (hmid ▸ hdid d (List.mem_of_mem_filter hd))
    · intro hnex
      have hnone : findBestDealMatch pr minConf s f = none := by
        cases hb : findBestDealMatch pr minConf s f with
        | none => rfl
        | some m =>
          exact absurd (((findBestDealMatch_spec pr minConf hmc s f).1).mp
            (by rw [hb]; rfl)) hnex
      unfold unlinkedOutcome at hout_f
      rw [hnone] at hout_f
      constructor
      · exact hout_f.trans hget
      · intro e he
        rcases hevents e he with hin | ⟨fid, hfidmem', f', m', h1, h2, h3⟩
        · exact Or.inl hin
        · right
          rw [h3]
          intro hmem
          have hfideq : f.id = fid := List.mem_singleton.mp hmem
          rw [← hfideq] at h1
          rw [hget] at h1
          have : f' = f := (Option.some_injective _ h1).symm
          subst this
          rw [h2] at hnone
          cases hnone
  · rw [show (reconcileUnlinkedFinancing pr minConf s).2 =
      0 + (unlinkedSnapshot s).countP (skippedB pr minConf s) from hsnd]
    rw [List.countP_eq_length_filter]
    omega

/-- A store with one CANDIDATE deal whose target name appears verbatim
in the unlinked financing fact's evidence. -/
def c4Deal : Deal :=
  { id := 1, state := DealState.candidate,
    targetNameNormalized := some ("target co".data),
    targetNameDisplay := some ("Target Co".data) }

def c4Fact : Fact :=
  { id := 11, factType := FactType.financingMention, dealId := none,
    evidenceSnippet := some ("notes issued to finance the acquisition of target co".data) }

def c4Store : Store :=
  { facts := [c4Fact], deals := [c4Deal], events := [], alerts := [], nextDealId := 2 }

theorem C4_unlinked_reconciliation_witness :
    (0 < (1/2 : ℚ)) ∧ ((c4Store.facts.map (fun g => g.id)).Nodup) ∧
      (∀ d ∈ c4Store.deals, d.id ≠ 0) ∧
    ((∀ deal ev, (scoreDealMatch (fun _ _ => 0) deal ev).confidence =
        specScore (fun _ _ => 0) deal ev) ∧
     (∀ f ∈ c4Store.facts, f.factType = FactType.financingMention → f.dealId = none →
       ((∃ d ∈ candidateDeals c4Store, (1/2 : ℚ) ≤
           (scoreDealMatch (fun _ _ => 0) d (pyLower (f.evidenceSnippet.getD []))).confidence) →
         ∃ m, findBestDealMatch (fun _ _ => 0) (1/2) c4Store f = some m ∧
           getFact (reconcileUnlinkedFinancing (fun _ _ => 0) (1/2) c4Store).1 f.id =
             some { f with dealId := some m.dealId } ∧
           ∃ e ∈ (reconcileUnlinkedFinancing (fun _ _ => 0) (1/2) c4Store).1.events,
             e.sourceFactIds = [f.id] ∧ e.reconciliationConfidence = m.confidence) ∧
       ((¬ ∃ d ∈ candidateDeals c4Store, (1/2 : ℚ) ≤
           (scoreDealMatch (fun _ _ => 0) d (pyLower (f.evidenceSnippet.getD []))).confidence) →
         getFact (reconcileUnlinkedFinancing (fun _ _ => 0) (1/2) c4Store).1 f.id = some f ∧
         ∀ e ∈ (reconcileUnlinkedFinancing (fun _ _ => 0) (1/2) c4Store).1.events,
           e ∈ c4Store.events ∨ f.id ∉ e.sourceFactIds)) ∧
     (reconcileUnlinkedFinancing (fun _ _ => 0) (1/2) c4Store).2 =
       ((unlinkedSnapshot c4Store).filter (skippedB (fun _ _ => 0) (1/2) c4Store)).length) :=
  ⟨by norm_num, by decide, by decide,
    C4_unlinked_reconciliation (fun _ _ => 0) (1/2) c4Store (by norm_num)
      (by decide) (by decide)⟩

/-! ## C2: LOCKED deals and the secondary pass -/

/-- A LOCKED deal with no sponsor information yet. -/
def c2Deal : Deal :=
  { id := 1, state := DealState.locked, dealKey := some ("cik:11:cik:22".data) }

/-- A party fact already clustered to the LOCKED deal (attached before
the deal was locked). -/
def c2PartyFact : Fact :=
  { id := 1, factType := FactType.partyDefinition, exhibitId := some 1, dealId := some 1 }

/-- A new unclustered SponsorMention fact from the same exhibit. -/
def c2SponsorFact : Fact :=
  { id := 2, factType := FactType.sponsorMention, exhibitId := some 1, dealId := none,
    confidence := some 1,
    evidenceSnippet := some ("to be acquired by affiliates of Blackstone".data),
    payload := { sponsorNameRaw := some ("Blackstone".data),
                 sponsorNameNormalized := some ("blackstone".data) } }

def c2Store : Store :=
  { facts := [c2PartyFact, c2SponsorFact], deals := [c2Deal], events := [],
    alerts := [], nextDealId := 2 }

/-- C2 failing input: running the clusterer on `c2Store` attaches the
new SponsorMention fact to the LOCKED deal and mutates the LOCKED deal's
sponsor fields, raising no `LowConfidenceMatch` alert — the secondary
pass (`_attach_secondary_facts`) never checks `DealState.LOCKED`,
contradicting the spec and the class's own docstring
("LOCKED: Archived deal (no more updates)"). -/
theorem C2_locked_deal_mutated_by_secondary_pass :
    c2Deal.state = DealState.locked ∧
    ((getDeal (clusterUnclusteredFacts (fun _ => false) c2Store) 1).map
      (fun d => (d.state, d.isSponsorBacked, d.sponsorNameNormalized))) =
      some (DealState.locked, true, some ("blackstone".data)) ∧
    ((getFact (clusterUnclusteredFacts (fun _ => false) c2Store) 2).map
      (fun f => f.dealId)) = some (some 1) ∧
    (clusterUnclusteredFacts (fun _ => false) c2Store).alerts = [] := by
  refine ⟨rfl, ?_, ?_, ?_⟩ <;> rfl

/-! ## C3: deal-key tiers and the NEEDS_REVIEW state -/

/-- The clustering-relevant core of a deal: key, state and the identity
fields the key is built from (the secondary pass touches none of them). -/
def dealCore (d : Deal) :
    Option (List Char) × DealState × Option (List Char) × Option (List Char) ×
      Option (List Char) × Option (List Char) :=
  (d.dealKey, d.state, d.acquirerCik, d.targetCik,
   d.acquirerNameNormalized, d.targetNameNormalized)

/-- A newly created deal follows the key tier priority, and its state is
NEEDS_REVIEW exactly when the key uses the name-only tier. -/
def newDealKeyOk (d : Deal) : Prop :=
  ∃ key, d.dealKey = some key ∧
    (optStrTruthy d.acquirerCik = true → optStrTruthy d.targetCik = true →
      key = "cik:".data ++ d.acquirerCik.getD [] ++ ":cik:".data ++ d.targetCik.getD []) ∧
    (optStrTruthy d.acquirerCik = true → optStrTruthy d.targetCik = false →
      key = "cik:".data ++ d.acquirerCik.getD [] ++ ":name:".data ++
        d.targetNameNormalized.getD []) ∧
    (optStrTruthy d.acquirerCik = false →
      key = "name:".data ++ d.acquirerNameNormalized.getD [] ++ ":name:".data ++
        d.targetNameNormalized.getD []) ∧
    (d.state = DealState.needsReview ↔ startsList ("name:".data) key = true) ∧
    (d.state = DealState.candidate ↔ startsList ("name:".data) key = false)

lemma startsList_append (p rest : List Char) : startsList p (p ++ rest) = true := by
  induction p with
  | nil => rfl
  | cons c cs ih =>
    simp [startsList, ih]

lemma newDealKeyOk_of_core {d d' : Deal} (h : dealCore d = dealCore d')
    (hok : newDealKeyOk d) : newDealKeyOk d' := by
  unfold dealCore at h
  have h1 : d.dealKey = d'.dealKey := congrArg (fun x => x.1) h
  have h2 : d.state = d'.state := congrArg (fun x => x.2.1) h
  have h3 : d.acquirerCik = d'.acquirerCik := congrArg (fun x => x.2.2.1) h
  have h4 : d.targetCik = d'.targetCik := congrArg (fun x => x.2.2.2.1) h
  have h5 : d.acquirerNameNormalized = d'.acquirerNameNormalized :=
    congrArg (fun x => x.2.2.2.2.1) h
  have h6 : d.targetNameNormalized = d'.targetNameNormalized :=
    congrArg (fun x => x.2.2.2.2.2) h
  obtain ⟨key, hkey, ha, hb, hc, hd, he⟩ := hok
  refine ⟨key, ?_, ?_, ?_, ?_, ?_, ?_⟩ <;>
    simp only [← h1, ← h2, ← h3, ← h4, ← h5, ← h6]
  · exact hkey
  · exact ha
  · exact hb
  · exact hc
  · exact hd
  · exact he

/-- The created deal of `_handle_target_fact` satisfies the key-tier
discipline. -/
lemma mkNewDeal_ok (s : Store) (fact af : Fact) (key : List Char)
    (hkey : buildDealKey af.payload.cik (af.payload.partyNameNormalized.getD [])
      fact.payload.cik (fact.payload.partyNameNormalized.getD []) = some key) :
    newDealKeyOk (mkNewDeal s fact af key) := by
  unfold buildDealKey at hkey
  split_ifs at hkey with h1 h2 h3
  · -- tier 1: both CIKs
    rw [Bool.and_eq_true] at h1
    have hkeyv := Option.some_injective _ hkey
    refine ⟨key, rfl, ?_, ?_, ?_, ?_, ?_⟩
    · intro _ _
      exact hkeyv.symm
    · intro _ htc
      exact absurd h1.2 (by simp [mkNewDeal] at htc ⊢; exact htc)
    · intro hac
      exact absurd h1.1 (by simp [mkNewDeal] at hac ⊢; exact hac)
    · have hpre : startsList ("name:".data) key = false := by
        rw [← hkeyv]
        rfl
      constructor
      · intro hst
        have : DealState.candidate = DealState.needsReview := by
          have hs : (mkNewDeal s fact af key).state = DealState.candidate := by
            simp [mkNewDeal, h1.1]
          rw [← hs, hst]
        cases this
      · intro hst
        rw [hpre] at hst
        cases hst
    · have hpre : startsList ("name:".data) key = false := by
        rw [← hkeyv]
        rfl
      constructor
      · intro _
        exact hpre
      · intro _
        simp [mkNewDeal, h1.1]
  · -- tier 2: acquirer CIK with target name
    rw [Bool.and_eq_true] at h2
    have hkeyv := Option.some_injective _ hkey
    have hntc : optStrTruthy fact.payload.cik = false := by
      by_cases hc : optStrTruthy fact.payload.cik = true
      · exact absurd (by rw [Bool.and_eq_true]; exact ⟨h2.1, hc⟩) h1
      · simpa using hc
    refine ⟨key, rfl, ?_, ?_, ?_, ?_, ?_⟩
    · intro _ htc
      exact absurd htc (by simp [mkNewDeal, hntc])
    · intro _ _
      rw [← hkeyv]
      simp [mkNewDeal]
    · intro hac
      exact absurd h2.1 (by simp [mkNewDeal] at hac ⊢; exact hac)
    · have hpre : startsList ("name:".data) key = false := by
        rw [← hkeyv]
        rfl
      constructor
      · intro hst
        have : DealState.candidate = DealState.needsReview := by
          have hs : (mkNewDeal s fact af key).state = DealState.candidate := by
            simp [mkNewDeal, h2.1]
          rw [← hs, hst]
        cases this
      · intro hst
        rw [hpre] at hst
        cases hst
    · have hpre : startsList ("name:".data) key = false := by
        rw [← hkeyv]
        rfl
      constructor
      · intro _
        exact hpre
      · intro _
        simp [mkNewDeal, h2.1]
  · -- tier 3: name-only
    rw [Bool.and_eq_true] at h3
    have hkeyv := Option.some_injective _ hkey
    have hnac : optStrTruthy af.payload.cik = false := by
      by_cases hc : optStrTruthy af.payload.cik = true
      · by_cases htc : optStrTruthy fact.payload.cik = true
        · exact absurd (by rw [Bool.and_eq_true]; exact ⟨hc, htc⟩) h1
        · have ht2 : (!(fact.payload.partyNameNormalized.getD []).isEmpty) = true := h3.2
          exact absurd (by rw [Bool.and_eq_true]; exact ⟨hc, ht2⟩) h2
      · simpa using hc
    refine ⟨key, rfl, ?_, ?_, ?_, ?_, ?_⟩
    · intro hac _
      exact absurd hac (by simp [mkNewDeal, hnac])
    · intro hac _
      exact absurd hac (by simp [mkNewDeal, hnac])
    · intro _
      rw [← hkeyv]
      simp [mkNewDeal]
    · have hpre : startsList ("name:".data) key = true := by
        rw [← hkeyv]
        have : "name:".data ++ af.payload.partyNameNormalized.getD [] ++ ":name:".data ++
            fact.payload.partyNameNormalized.getD [] =
          "name:".data ++ (af.payload.partyNameNormalized.getD [] ++ ":name:".data ++
            fact.payload.partyNameNormalized.getD []) := by
          simp [List.append_assoc]
        rw [this]
        exact startsList_append _ _
      constructor
      · intro _
        exact hpre
      · intro _
        simp [mkNewDeal, hnac]
    · have hpre : startsList ("name:".data) key = true := by
        rw [← hkeyv]
        have : "name:".data ++ af.payload.partyNameNormalized.getD [] ++ ":name:".data ++
            fact.payload.partyNameNormalized.getD [] =
          "name:".data ++ (af.payload.partyNameNormalized.getD [] ++ ":name:".data ++
            fact.payload.partyNameNormalized.getD []) := by
          simp [List.append_assoc]
        rw [this]
        exact startsList_append _ _
      constructor
      · intro hst
        have hs : (mkNewDeal s fact af key).state = DealState.needsReview := by
          simp [mkNewDeal, hnac]
        rw [hs] at hst
        cases hst
      · intro hst
        rw [hpre] at hst
        cases hst

lemma handleTargetFact_deals (s : Store) (fact : Fact) :
    (handleTargetFact s fact).1.deals = s.deals ∨
    ∃ af key,
      buildDealKey af.payload.cik (af.payload.partyNameNormalized.getD [])
        fact.payload.cik (fact.payload.partyNameNormalized.getD []) = some key ∧
      (handleTargetFact s fact).1.deals = s.deals ++ [mkNewDeal s fact af key] := by
  cases hrel : findRelatedPartyFacts s fact acquirerLabels with
  | nil => exact Or.inl (by simp [handleTargetFact, hrel])
  | cons af rest =>
    cases hkey : buildDealKey af.payload.cik (af.payload.partyNameNormalized.getD [])
        fact.payload.cik (fact.payload.partyNameNormalized.getD []) with
    | none => exact Or.inl (by simp [handleTargetFact, hrel, hkey])
    | some key =>
      cases hfind : getDealByKey s key with
      | some existing =>
        by_cases hlock : (existing.state == DealState.locked) = true
        · exact Or.inl (by simp [handleTargetFact, hrel, hkey, hfind, hlock, addAlert])
        · exact Or.inl (by
            simp [handleTargetFact, hrel, hkey, hfind, hlock, attachFacts, setFactDealId])
      | none =>
        exact Or.inr ⟨af, key, hkey, by
          simp [handleTargetFact, hrel, hkey, hfind, attachFacts, setFactDealId]⟩

lemma handleAcquirerFact_deals (s : Store) (fact : Fact) :
    (handleAcquirerFact s fact).1.deals = s.deals := by
  cases hrel : findRelatedPartyFacts s fact targetLabels with
  | nil => simp [handleAcquirerFact, hrel]
  | cons tf rest =>
    cases hkey : buildDealKey fact.payload.cik (fact.payload.partyNameNormalized.getD [])
        tf.payload.cik (tf.payload.partyNameNormalized.getD []) with
    | none => simp [handleAcquirerFact, hrel, hkey]
    | some key =>
      cases hfind : getDealByKey s key with
      | none => simp [handleAcquirerFact, hrel, hkey, hfind]
      | some existing =>
        by_cases hlock : (existing.state == DealState.locked) = true
        · simp [handleAcquirerFact, hrel, hkey, hfind, hlock]
        · simp [handleAcquirerFact, hrel, hkey, hfind, hlock, attachFacts, setFactDealId]

lemma clusterFact_deals (s : Store) (fid : Nat) :
    ∀ d ∈ (clusterFact s fid).1.deals, d ∈ s.deals ∨ newDealKeyOk d := by
  intro d hd
  cases hget : getFact s fid with
  | none =>
    rw [show (clusterFact s fid).1.deals = s.deals from by simp [clusterFact, hget]] at hd
    exact Or.inl hd
  | some fact =>
    by_cases hempty : ((fact.payload.partyNameNormalized.getD []).isEmpty) = true
    · rw [show (clusterFact s fid).1.deals = s.deals from by
        simp [clusterFact, hget, hempty]] at hd
      exact Or.inl hd
    · by_cases htgt : pyLower (fact.payload.roleLabel.getD []) ∈ targetLabels
      · have hred : (clusterFact s fid).1.deals = (handleTargetFact s fact).1.deals := by
          simp [clusterFact, hget, hempty, htgt]
        rw [hred] at hd
        rcases handleTargetFact_deals s fact with heq | ⟨af, key, hkey, heq⟩
        · rw [heq] at hd
          exact Or.inl hd
        · rw [heq] at hd
          rcases List.mem_append.mp hd with hin | hin
          · exact Or.inl hin
          · have : d = mkNewDeal s fact af key := List.mem_singleton.mp hin
            subst this
            exact Or.inr (mkNewDeal_ok s fact af key hkey)
      · by_cases hacq : pyLower (fact.payload.roleLabel.getD []) ∈ acquirerLabels
        · rw [show (clusterFact s fid).1.deals = s.deals from by
            simp [clusterFact, hget, hempty, htgt, hacq, handleAcquirerFact_deals]] at hd
          exact Or.inl hd
        · rw [show (clusterFact s fid).1.deals = s.deals from by
            simp [clusterFact, hget, hempty, htgt, hacq]] at hd
          exact Or.inl hd

lemma clusterFold_deals :
    ∀ (ids : List Nat) (t : Store),
      ∀ d ∈ (ids.foldl (fun u fid => (clusterFact u fid).1) t).deals,
        d ∈ t.deals ∨ newDealKeyOk d := by
  intro ids
  induction ids with
  | nil => intro t d hd; exact Or.inl hd
  | cons i is ih =>
    intro t d hd
    rw [List.foldl_cons] at hd
    rcases ih _ d hd with hmem | hok
    · exact clusterFact_deals t i d hmem
    · exact Or.inr hok

lemma sponsorUpdatedDeal_core (d : Deal) (fact : Fact) :
    dealCore (sponsorUpdatedDeal d fact) = dealCore d := by
  unfold sponsorUpdatedDeal
  split_ifs <;> rfl

lemma dateSlotUpdate_core (isoOk : List Char → Bool) (d : Deal)
    (dateType : Option (List Char)) (dv : List Char) :
    dealCore (dateSlotUpdate isoOk d dateType dv) = dealCore d := by
  unfold dateSlotUpdate
  split_ifs <;> rfl

lemma dateUpdatedDeal_core (isoOk : List Char → Bool) (d : Deal) (fact : Fact) :
    dealCore (dateUpdatedDeal isoOk d fact) = dealCore d := by
  unfold dateUpdatedDeal
  cases fact.payload.dateValue with
  | none => rfl
  | some dv => exact dateSlotUpdate_core isoOk d fact.payload.dateType dv

lemma updateDealField_core (s : Store) (did : Nat) (upd : Deal → Deal)
    (hupd : ∀ d, dealCore (upd d) = dealCore d) :
    ∀ d ∈ (updateDealField s did upd).deals, ∃ d₀ ∈ s.deals, dealCore d₀ = dealCore d := by
  intro d hd
  unfold updateDealField at hd
  simp only [] at hd
  rw [List.mem_map] at hd
  obtain ⟨d₀, hd₀, hmap⟩ := hd
  refine ⟨d₀, hd₀, ?_⟩
  rw [← hmap]
  by_cases h : (d₀.id == did) = true
  · rw [if_pos h, hupd]
  · rw [if_neg h]

lemma secondaryStep_core (isoOk : List Char → Bool) (t : Store) (fid : Nat) :
    ∀ d ∈ (secondaryStep isoOk t fid).deals, ∃ d₀ ∈ t.deals, dealCore d₀ = dealCore d := by
  intro d hd
  cases hget : getFact t fid with
  | none =>
    rw [show (secondaryStep isoOk t fid).deals = t.deals from by
      simp [secondaryStep, hget]] at hd
    exact ⟨d, hd, rfl⟩
  | some fact =>
    cases hfind : findDealForFact t fact with
    | none =>
      rw [show (secondaryStep isoOk t fid).deals = t.deals from by
        simp [secondaryStep, hget, hfind]] at hd
      exact ⟨d, hd, rfl⟩
    | some did =>
      by_cases hz : (did == 0) = true
      · rw [show (secondaryStep isoOk t fid).deals = t.deals from by
          simp [secondaryStep, hget, hfind, hz]] at hd
        exact ⟨d, hd, rfl⟩
      · by_cases hsp : (fact.factType == FactType.sponsorMention) = true
        · have hdt : (fact.factType == FactType.dealDate) = false := by
            rw [beq_iff_eq] at hsp
            simp [hsp]
          have hred : (secondaryStep isoOk t fid).deals =
              (updateDealField (setFactDealId t fid did) did
                (fun d => sponsorUpdatedDeal d fact)).deals := by
            simp [secondaryStep, hget, hfind, hz, hsp, hdt]
          rw [hred] at hd
          obtain ⟨d₀, hd₀, hcore⟩ := updateDealField_core _ did _
            (fun d => sponsorUpdatedDeal_core d fact) d hd
          exact ⟨d₀, hd₀, hcore⟩
        · by_cases hdt : (fact.factType == FactType.dealDate) = true
          · have hred : (secondaryStep isoOk t fid).deals =
                (updateDealField (setFactDealId t fid did) did
                  (fun d => dateUpdatedDeal isoOk d fact)).deals := by
              simp [secondaryStep, hget, hfind, hz, hsp, hdt]
            rw [hred] at hd
            obtain ⟨d₀, hd₀, hcore⟩ := updateDealField_core _ did _
              (fun d => dateUpdatedDeal_core isoOk d fact) d hd
            exact ⟨d₀, hd₀, hcore⟩
          · rw [show (secondaryStep isoOk t fid).deals = t.deals from by
              simp [secondaryStep, hget, hfind, hz, hsp, hdt, setFactDealId]] at hd
            exact ⟨d, hd, rfl⟩

lemma secondaryFold_core (isoOk : List Char → Bool) :
    ∀ (ids : List Nat) (t : Store),
      ∀ d ∈ (ids.foldl (secondaryStep isoOk) t).deals,
        ∃ d₀ ∈ t.deals, dealCore d₀ = dealCore d := by
  intro ids
  induction ids with
  | nil => intro t d hd; exact ⟨d, hd, rfl⟩
  | cons i is ih =>
    intro t d hd
    rw [List.foldl_cons] at hd
    obtain ⟨d₁, hd₁, hcore₁⟩ := ih _ d hd
    obtain ⟨d₀, hd₀, hcore₀⟩ := secondaryStep_core isoOk t i d₁ hd₁
    exact ⟨d₀, hd₀, hcore₀.trans hcore₁⟩

/-- C3: every deal present after a clusterer run is (core-wise) a
pre-existing deal or a deal created by `_handle_target_fact`, and every
created deal's key follows the tier priority with state NEEDS_REVIEW iff
the key uses the name-only tier (CANDIDATE otherwise). -/
theorem C3_deal_key_tiers (isoOk : List Char → Bool) (s : Store) :
    ∀ d ∈ (clusterUnclusteredFacts isoOk s).deals,
      (∃ d₀ ∈ s.deals, dealCore d₀ = dealCore d) ∨ newDealKeyOk d := by
  intro d hd
  unfold clusterUnclusteredFacts attachSecondaryFacts at hd
  obtain ⟨d₁, hd₁, hcore⟩ := secondaryFold_core isoOk _ _ d hd
  unfold clusterPrimary at hd₁
  rcases clusterFold_deals (partySnapshot s) s d₁ hd₁ with hmem | hok
  · exact Or.inl ⟨d₁, hmem, hcore⟩
  · exact Or.inr (newDealKeyOk_of_core hcore hok)

/-- Target fact without a CIK, acquirer fact with a CIK, same exhibit:
the created deal uses the `cik:…:name:…` tier and stays CANDIDATE. -/
def c3TargetFact : Fact :=
  { id := 1, factType := FactType.partyDefinition, exhibitId := some 1,
    payload := { roleLabel := some ("Company".data),
                 partyNameNormalized := some ("target co".data) } }

def c3AcqFact : Fact :=
  { id := 2, factType := FactType.partyDefinition, exhibitId := some 1,
    payload := { roleLabel := some ("Parent".data),
                 partyNameNormalized := some ("alpha holdings".data),
                 cik := some ("0001234".data) } }

def c3Store : Store :=
  { facts := [c3TargetFact, c3AcqFact], deals := [], events := [], alerts := [],
    nextDealId := 1 }

def c3NewDeal : Deal :=
  mkNewDeal c3Store c3TargetFact c3AcqFact (("cik:0001234:name:target co").data)

theorem C3_deal_key_tiers_witness :
    (c3NewDeal ∈ (clusterUnclusteredFacts (fun _ => false) c3Store).deals) ∧
    ((∃ d₀ ∈ c3Store.deals, dealCore d₀ = dealCore c3NewDeal) ∨ newDealKeyOk c3NewDeal) :=
  ⟨by decide, C3_deal_key_tiers (fun _ => false) c3Store c3NewDeal (by decide)⟩

/-! ### Text normalizer (`visual_text_extractor.normalize_text`, claim C7)

`normalize_text` applies, in order: the `CHAR_REPLACEMENTS` table
(sequential single-character `str.replace` calls; since no replacement
value is itself a key, this equals one simultaneous character map),
`re.sub(r"[ \t]+", " ")`, `re.sub(r"\n{3,}", "\n\n")`,
`re.sub(r" *\n *", "\n")`, and `str.strip()`. -/

/-- One entry lookup of `CHAR_REPLACEMENTS`: smart double quotes to `"`,
smart single quotes to an ASCII apostrophe, dashes to `-`, special
spaces to a plain space, zero-width space and BOM to nothing; every
other character is kept as itself. -/
def substChar (c : Char) : List Char :=
  if c = '“' ∨ c = '”' ∨ c = '„' ∨ c = '‟' then ['"']
  else if c = '‘' ∨ c = '’' ∨ c = '‚' ∨ c = '‛' then ['\x27']
  else if c = '–' ∨ c = '—' ∨ c = '―' ∨ c = '‒' then ['-']
  else if c = '\xA0' ∨ c = ' ' ∨ c = ' ' ∨ c = ' ' ∨ c = ' ' then [' ']
  else if c = '​' ∨ c = '﻿' then []
  else [c]

/-- The whole `CHAR_REPLACEMENTS` pass over a string. -/
def substAll : List Char → List Char
  | [] => []
  | c :: t => substChar c ++ substAll t

def spTab (c : Char) : Bool := c == ' ' || c == '\t'

def optSpTab : Option Char → Bool
  | some b => spTab b
  | none => false

def optIsNl : Option Char → Bool
  | some b => b == '\n'
  | none => false

def optIsSp : Option Char → Bool
  | some b => b == ' '
  | none => false

/-- `re.sub(r"[ \t]+", " ", s)`: each maximal run of spaces and tabs
becomes one space (emitted at the end of the run, which yields the same
string as emitting it at the start). -/
def cst : List Char → List Char
  | [] => []
  | a :: rest =>
    if spTab a && optSpTab rest.head? then cst rest
    else (if spTab a then ' ' else a) :: cst rest

/-- Does the string contain three consecutive newlines? -/
def hasTripleNl : List Char → Bool
  | [] => false
  | a :: rest => (a == '\n' && startsList (['\n', '\n']) rest) || hasTripleNl rest

/-- `re.sub(r"\n{3,}", "\n\n", s)`: while a newline still has two more
newlines after it, drop it; a maximal run of three or more newlines is
cut down to exactly two, shorter runs are kept. -/
def nl3 : List Char → List Char
  | [] => []
  | a :: rest =>
    if a == '\n' && startsList (['\n', '\n']) rest then nl3 rest
    else a :: nl3 rest

/-- `re.sub(r" *\n *", "\n", s)`: a space run adjacent to a newline on
either side is consumed by the match around that newline. The Boolean
argument records whether the previous kept character was a newline
(possibly through already dropped spaces). -/
def snlAux : Bool → List Char → List Char
  | _, [] => []
  | afterNl, c :: rest =>
    if c = '\n' then '\n' :: snlAux true rest
    else if c = ' ' then
      if afterNl || optIsNl ((rest.dropWhile (fun x => x == ' ')).head?) then snlAux afterNl rest
      else ' ' :: snlAux false rest
    else c :: snlAux false rest

def snl (s : List Char) : List Char := snlAux false s

/-- `normalize_text` of `visual_text_extractor.py` (lines 230–245). -/
def normalizeText (s : List Char) : List Char :=
  pyStrip (snl (nl3 (cst (substAll s))))

/-- A character the substitution table maps to itself. -/
def goodChar (c : Char) : Prop := substChar c = [c]

instance (c : Char) : Decidable (goodChar c) :=
  inferInstanceAs (Decidable (substChar c = [c]))

lemma substChar_good (a : Char) : ∀ c ∈ substChar a, goodChar c := by
  unfold substChar
  split_ifs with h1 h2 h3 h4 h5
  · intro c hc; simp only [List.mem_singleton] at hc; subst hc; decide
  · intro c hc; simp only [List.mem_singleton] at hc; subst hc; decide
  · intro c hc; simp only [List.mem_singleton] at hc; subst hc; decide
  · intro c hc; simp only [List.mem_singleton] at hc; subst hc; decide
  · intro c hc; simp at hc
  · intro c hc
    simp only [List.mem_singleton] at hc
    subst hc
    show substChar c = [c]
    unfold substChar
    rw [if_neg h1, if_neg h2, if_neg h3, if_neg h4, if_neg h5]

lemma substAll_id (s : List Char) (h : ∀ c ∈ s, goodChar c) : substAll s = s := by
  induction s with
  | nil => rfl
  | cons a t ih =>
    have ha : substChar a = [a] := h a (List.mem_cons_self a t)
    simp only [substAll, ha, List.singleton_append, List.cons.injEq, true_and]
    exact ih (fun c hc => h c (List.mem_cons_of_mem a hc))

lemma mem_substAll_good (s : List Char) : ∀ c ∈ substAll s, goodChar c := by
  induction s with
  | nil => intro c hc; simp [substAll] at hc
  | cons a t ih =>
    intro c hc
    simp only [substAll] at hc
    rcases List.mem_append.mp hc with h | h
    · exact substChar_good a c h
    · exact ih c h

lemma mem_cst_good (s : List Char) (h : ∀ c ∈ s, goodChar c) : ∀ c ∈ cst s, goodChar c := by
  induction s with
  | nil => intro c hc; simp [cst] at hc
  | cons a rest ih =>
    intro c hc
    have htail : ∀ c ∈ rest, goodChar c := fun c hc => h c (List.mem_cons_of_mem a hc)
    by_cases hcond : (spTab a && optSpTab rest.head?) = true
    · rw [cst, if_pos hcond] at hc
      exact ih htail c hc
    · rw [cst, if_neg hcond] at hc
      rcases List.mem_cons.mp hc with hcc | hcc

      · subst hcc
        by_cases hsa : spTab a = true
        · rw [if_pos hsa]; decide
        · rw [if_neg hsa]; exact h a (List.mem_cons_self a rest)
      · exact ih htail c hcc

lemma mem_nl3 (s : List Char) : ∀ c ∈ nl3 s, c ∈ s := by
  induction s with
  | nil => intro c hc; simp [nl3] at hc
  | cons a rest ih =>
    intro c hc
    by_cases hcond : (a == '\n' && startsList (['\n', '\n']) rest) = true
    · rw [nl3, if_pos hcond] at hc
      exact List.mem_cons_of_mem a (ih c hc)
    · rw [nl3, if_neg hcond] at hc
      rcases List.mem_cons.mp hc with hcc | hcc
      · exact hcc ▸ List.mem_cons_self a rest
      · exact List.mem_cons_of_mem a (ih c hcc)

lemma mem_snlAux (s : List Char) : ∀ b, ∀ c ∈ snlAux b s, c ∈ s := by
  induction s with
  | nil => intro b c hc; simp [snlAux] at hc
  | cons a rest ih =>
    intro b c hc
    by_cases ha : a = '\n'
    · rw [snlAux, if_pos ha] at hc
      rcases List.mem_cons.mp hc with hcc | hcc
      · exact hcc ▸ (ha ▸ List.mem_cons_self a rest)
      · exact List.mem_cons_of_mem a (ih true c hcc)
    · rw [snlAux, if_neg ha] at hc
      by_cases ha2 : a = ' '
      · rw [if_pos ha2] at hc
        by_cases hd : (b || optIsNl ((rest.dropWhile (fun x => x == ' ')).head?)) = true
        · rw [if_pos hd] at hc
          exact List.mem_cons_of_mem a (ih b c hc)
        · rw [if_neg hd] at hc
          rcases List.mem_cons.mp hc with hcc | hcc
          · exact hcc ▸ (ha2 ▸ List.mem_cons_self a rest)
          · exact List.mem_cons_of_mem a (ih false c hcc)
      · rw [if_neg ha2] at hc
        rcases List.mem_cons.mp hc with hcc | hcc
        · exact hcc ▸ List.mem_cons_self a rest
        · exact List.mem_cons_of_mem a (ih false c hcc)

lemma mem_pyStrip (s : List Char) : ∀ c ∈ pyStrip s, c ∈ s := by
  intro c hc
  unfold pyStrip at hc
  rw [List.mem_reverse] at hc
  have h1 : c ∈ (s.dropWhile pySpace).reverse := (List.dropWhile_sublist _).subset hc
  rw [List.mem_reverse] at h1
  exact (List.dropWhile_sublist _).subset h1

/-- A pairwise condition on adjacent characters (the second argument of
`f` is the following character, `none` at the end of the string). -/
def pairwiseOkB (f : Char → Option Char → Bool) : List Char → Bool
  | [] => true
  | a :: rest => f a rest.head? && pairwiseOkB f rest

/-- The fixed-point condition of `cst`: a space or tab is a plain space
whose successor is not a space or tab. -/
def cstOk (a : Char) (b : Option Char) : Bool :=
  !spTab a || (a == ' ' && !optSpTab b)

def cstFixed : List Char → Bool := pairwiseOkB cstOk

/-- The fixed-point condition of `snl`: no space directly before a
newline and no space directly after one. -/
def snlOk (a : Char) (b : Option Char) : Bool :=
  !(a == ' ' && optIsNl b) && !(a == '\n' && optIsSp b)

lemma pairwiseOkB_suffix (f : Char → Option Char → Bool) (l w : List Char)
    (h : pairwiseOkB f (l ++ w) = true) : pairwiseOkB f w = true := by
  induction l with
  | nil => simpa using h
  | cons a t ih =>
    simp only [List.cons_append, pairwiseOkB, Bool.and_eq_true] at h
    exact ih h.2

lemma pairwiseOkB_prefix (f : Char → Option Char → Bool)
    (hmono : ∀ a b, f a (some b) = true → f a none = true) (u r : List Char)
    (h : pairwiseOkB f (u ++ r) = true) : pairwiseOkB f u = true := by
  induction u with
  | nil => rfl
  | cons a t ih =>
    simp only [List.cons_append, pairwiseOkB, Bool.and_eq_true] at h
    obtain ⟨h1, h2⟩ := h
    have hhead : f a t.head? = true := by
      cases t with
      | nil =>
        cases r with
        | nil => simpa using h1
        | cons b rb => exact hmono a b (by simpa using h1)
      | cons x xs => simpa using h1
    simp only [pairwiseOkB, Bool.and_eq_true]
    exact ⟨hhead, ih h2⟩

lemma pairwiseOkB_part (f : Char → Option Char → Bool)
    (hmono : ∀ a b, f a (some b) = true → f a none = true) (u s : List Char)
    (hinf : u <:+: s) (h : pairwiseOkB f s = true) : pairwiseOkB f u = true := by
  obtain ⟨l, r, hs⟩ := hinf
  subst hs
  have h2 := pairwiseOkB_suffix f l (u ++ r) (by rwa [← List.append_assoc])
  exact pairwiseOkB_prefix f hmono u r h2

lemma dropWhile_suffix (p : Char → Bool) (s : List Char) : s.dropWhile p <:+ s := by
  induction s with
  | nil => exact List.suffix_refl _
  | cons a t ih =>
    rw [List.dropWhile_cons]
    by_cases h : p a = true
    · rw [if_pos h]
      exact ih.trans (List.suffix_cons a t)
    · rw [if_neg h]

lemma pyStrip_part (s : List Char) : pyStrip s <:+: s := by
  unfold pyStrip
  have h1 : ((s.dropWhile pySpace).reverse.dropWhile pySpace) <:+ (s.dropWhile pySpace).reverse :=
    dropWhile_suffix pySpace _
  have h2 : ((s.dropWhile pySpace).reverse.dropWhile pySpace).reverse <+: (s.dropWhile pySpace) :=
    List.reverse_suffix.mp (by rw [List.reverse_reverse]; exact h1)
  exact h2.isInfix.trans (dropWhile_suffix pySpace s).isInfix

lemma andBool {a b : Bool} (h : (a && b) = true) : a = true ∧ b = true := by
  simp only [Bool.and_eq_true] at h
  exact h

lemma cstOk_mono (a b : Char) (h : cstOk a (some b) = true) : cstOk a none = true := by
  cases hsa : spTab a with
  | false => simp [cstOk, hsa]
  | true =>
    simp only [cstOk, hsa, optSpTab, Bool.not_true, Bool.false_or, Bool.and_eq_true,
      Bool.not_eq_true'] at h ⊢
    exact ⟨h.1, trivial⟩

lemma snlOk_mono (a b : Char) (h : snlOk a (some b) = true) : snlOk a none = true := by
  simp [snlOk, optIsNl, optIsSp]

lemma cst_of_fixed (s : List Char) (h : cstFixed s = true) : cst s = s := by
  induction s with
  | nil => rfl
  | cons a rest ih =>
    simp only [cstFixed, pairwiseOkB, Bool.and_eq_true] at h
    obtain ⟨h1, h2⟩ := h
    by_cases hsa : spTab a = true
    · have h1' : (a == ' ' && !optSpTab rest.head?) = true := by
        simpa [cstOk, hsa] using h1
      obtain ⟨ha', hx⟩ := andBool h1'
      have ha'' : a = ' ' := by simpa using ha'
      have hx' : optSpTab rest.head? = false := by simpa using hx
      have hcond : (spTab a && optSpTab rest.head?) = false := by rw [hsa, hx']; rfl
      rw [cst, if_neg (by rw [hcond]; exact Bool.false_ne_true), if_pos hsa, ih h2, ha'']
    · have hsa' : spTab a = false := by simpa using hsa
      have hcond : (spTab a && optSpTab rest.head?) = false := by rw [hsa']; rfl
      rw [cst, if_neg (by rw [hcond]; exact Bool.false_ne_true), if_neg hsa, ih h2]

lemma cst_head_spTab (s : List Char) : optSpTab (cst s).head? = optSpTab s.head? := by
  induction s with
  | nil => rfl
  | cons a rest ih =>
    by_cases hcond : (spTab a && optSpTab rest.head?) = true
    · obtain ⟨hsa, hrest⟩ := andBool hcond
      rw [cst, if_pos hcond, ih, hrest]
      show true = spTab a
      rw [hsa]
    · rw [cst, if_neg hcond]
      by_cases hsa : spTab a = true
      · rw [if_pos hsa]
        show spTab ' ' = spTab a
        rw [hsa]
        decide
      · rw [if_neg hsa]
        rfl

lemma cstFixed_cst (s : List Char) : cstFixed (cst s) = true := by
  induction s with
  | nil => rfl
  | cons a rest ih =>
    by_cases hcond : (spTab a && optSpTab rest.head?) = true
    · rw [cst, if_pos hcond]; exact ih
    · rw [cst, if_neg hcond]
      simp only [cstFixed, pairwiseOkB, Bool.and_eq_true]
      refine ⟨?_, ih⟩
      by_cases hsa : spTab a = true
      · rw [if_pos hsa]
        have hrest : optSpTab rest.head? = false := by
          cases hr : optSpTab rest.head? with
          | false => rfl
          | true => exact absurd (by rw [hsa, hr]; rfl) hcond
        have : optSpTab (cst rest).head? = false := by rw [cst_head_spTab, hrest]
        simp [cstOk, this]
      · rw [if_neg hsa]
        have hsa' : spTab a = false := by simpa using hsa
        simp [cstOk, hsa']

lemma startsList_two_nl (rest : List Char) (h : startsList (['\n', '\n']) rest = true) :
    ∃ t, rest = '\n' :: '\n' :: t := by
  cases rest with
  | nil => simp [startsList] at h
  | cons b t =>
    cases t with
    | nil => simp [startsList] at h
    | cons b2 t2 =>
      simp only [startsList, Bool.and_eq_true, beq_iff_eq] at h
      obtain ⟨hb, hb2, -⟩ := h
      exact ⟨t2, by rw [← hb, ← hb2]⟩

lemma nl3_head_spTab (s : List Char) : optSpTab (nl3 s).head? = optSpTab s.head? := by
  induction s with
  | nil => rfl
  | cons a rest ih =>
    by_cases hcond : (a == '\n' && startsList (['\n', '\n']) rest) = true
    · obtain ⟨ha, hst⟩ := andBool hcond
      obtain ⟨t, ht⟩ := startsList_two_nl rest hst
      rw [nl3, if_pos hcond, ih, ht]
      have ha' : a = '\n' := by simpa using ha
      simp [optSpTab, ha', spTab]
    · rw [nl3, if_neg hcond]
      rfl

lemma nl3_pres_cstFixed (s : List Char) (h : cstFixed s = true) : cstFixed (nl3 s) = true := by
  induction s with
  | nil => rfl
  | cons a rest ih =>
    simp only [cstFixed, pairwiseOkB, Bool.and_eq_true] at h
    obtain ⟨h1, h2⟩ := h
    by_cases hcond : (a == '\n' && startsList (['\n', '\n']) rest) = true
    · rw [nl3, if_pos hcond]; exact ih h2
    · rw [nl3, if_neg hcond]
      simp only [cstFixed, pairwiseOkB, Bool.and_eq_true]
      refine ⟨?_, ih h2⟩
      have hh : optSpTab (nl3 rest).head? = optSpTab rest.head? := nl3_head_spTab rest
      simpa [cstOk, hh] using h1

lemma snlAux_head_spTab_of_false (s : List Char) (b : Bool)
    (h : optSpTab s.head? = false) : optSpTab (snlAux b s).head? = false := by
  cases s with
  | nil => rfl
  | cons a rest =>
    by_cases ha : a = '\n'
    · rw [snlAux, if_pos ha]
      simp [optSpTab, spTab]
    · by_cases ha2 : a = ' '
      · exfalso
        rw [ha2] at h
        simp [optSpTab, spTab] at h
      · rw [snlAux, if_neg ha, if_neg ha2]
        exact h

lemma snl_pres_cstFixed (s : List Char) : ∀ b, cstFixed s = true → cstFixed (snlAux b s) = true := by
  induction s with
  | nil => intro b _; rfl
  | cons a rest ih =>
    intro b h
    simp only [cstFixed, pairwiseOkB, Bool.and_eq_true] at h
    obtain ⟨h1, h2⟩ := h
    by_cases ha : a = '\n'
    · rw [snlAux, if_pos ha]
      simp only [cstFixed, pairwiseOkB, Bool.and_eq_true]
      exact ⟨by simp [cstOk, spTab], ih true h2⟩
    · by_cases ha2 : a = ' '
      · rw [snlAux, if_neg ha, if_pos ha2]
        by_cases hd : (b || optIsNl ((rest.dropWhile (fun x => x == ' ')).head?)) = true
        · rw [if_pos hd]; exact ih b h2
        · rw [if_neg hd]
          simp only [cstFixed, pairwiseOkB, Bool.and_eq_true]
          refine ⟨?_, ih false h2⟩
          have hrest : optSpTab rest.head? = false := by
            rw [ha2] at h1
            simpa [cstOk, spTab] using h1
          have := snlAux_head_spTab_of_false rest false hrest
          simp [cstOk, this]
      · rw [snlAux, if_neg ha, if_neg ha2]
        simp only [cstFixed, pairwiseOkB, Bool.and_eq_true]
        refine ⟨?_, ih false h2⟩
        have hsa : spTab a = false := by
          cases hq : spTab a with
          | false => rfl
          | true =>
            rw [cstOk, hq] at h1
            simp only [Bool.not_true, Bool.false_or, Bool.and_eq_true, beq_iff_eq] at h1
            exact absurd h1.1 ha2
        simp [cstOk, hsa]

lemma lookahead_false_of_snlOk (rest : List Char)
    (h : pairwiseOkB snlOk ((' ') :: rest) = true) :
    optIsNl ((rest.dropWhile (fun x => x == ' ')).head?) = false := by
  induction rest with
  | nil => rfl
  | cons e t ih =>
    simp only [pairwiseOkB, Bool.and_eq_true] at h
    obtain ⟨h1, h2, h3⟩ := h
    have henl : (e == '\n') = false := by
      cases hq : (e == '\n') with
      | false => rfl
      | true =>
        rw [snlOk] at h1
        simp only [List.head?_cons, optIsNl, hq] at h1
        simp at h1
    by_cases he : e = ' '
    · rw [List.dropWhile_cons, if_pos (by rw [he]; rfl)]
      refine ih ?_
      simp only [pairwiseOkB, Bool.and_eq_true]
      rw [← he]
      exact ⟨h2, h3⟩
    · rw [List.dropWhile_cons, if_neg (by simpa using he)]
      simpa [optIsNl] using henl

lemma snlAux_of_fixed (s : List Char) : ∀ b, pairwiseOkB snlOk s = true →
    (b = true → optIsSp s.head? = false) → snlAux b s = s := by
  induction s with
  | nil => intro b _ _; rfl
  | cons a rest ih =>
    intro b h hb
    simp only [pairwiseOkB, Bool.and_eq_true] at h
    obtain ⟨h1, h2⟩ := h
    by_cases ha : a = '\n'
    · rw [snlAux, if_pos ha, ha]
      have hrest : optIsSp rest.head? = false := by
        rw [snlOk, ha] at h1
        cases hq : optIsSp rest.head? with
        | false => rfl
        | true => rw [hq] at h1; simp at h1
      rw [ih true h2 (fun _ => hrest)]
    · by_cases ha2 : a = ' '
      · cases b with
        | true =>
          exfalso
          have := hb rfl
          rw [ha2] at this
          simp [optIsSp] at this
        | false =>
          have hlook : optIsNl ((rest.dropWhile (fun x => x == ' ')).head?) = false := by
            refine lookahead_false_of_snlOk rest ?_
            simp only [pairwiseOkB, Bool.and_eq_true]
            rw [← ha2]
            exact ⟨h1, h2⟩
          rw [snlAux, if_neg ha, if_pos ha2,
            if_neg (by rw [hlook]; simp), ha2]
          rw [ih false h2 (fun hf => nomatch hf)]
      · rw [snlAux, if_neg ha, if_neg ha2]
        rw [ih false h2 (fun hf => nomatch hf)]

lemma snlAux_true_head_not_sp (s : List Char) : optIsSp ((snlAux true s).head?) = false := by
  induction s with
  | nil => rfl
  | cons a t ih =>
    by_cases ha : a = '\n'
    · rw [snlAux, if_pos ha]
      rfl
    · by_cases ha2 : a = ' '
      · rw [snlAux, if_neg ha, if_pos ha2, if_pos (by simp)]
        exact ih
      · rw [snlAux, if_neg ha, if_neg ha2]
        simpa [optIsSp] using ha2

lemma snlAux_false_head_not_nl (rest : List Char)
    (h : optIsNl ((rest.dropWhile (fun x => x == ' ')).head?) = false) :
    optIsNl ((snlAux false rest).head?) = false := by
  cases rest with
  | nil => rfl
  | cons e t =>
    by_cases he : e = '\n'
    · exfalso
      rw [List.dropWhile_cons, if_neg (by rw [he]; simp)] at h
      rw [he] at h
      simp [optIsNl] at h
    · by_cases he2 : e = ' '
      · rw [List.dropWhile_cons, if_pos (by rw [he2]; rfl)] at h
        rw [snlAux, if_neg he, if_pos he2, if_neg (by rw [h]; simp)]
        rfl
      · rw [snlAux, if_neg he, if_neg he2]
        simpa [optIsNl] using he

lemma snlOk_snlAux (s : List Char) : ∀ b, pairwiseOkB snlOk (snlAux b s) = true := by
  induction s with
  | nil => intro b; rfl
  | cons a rest ih =>
    intro b
    by_cases ha : a = '\n'
    · rw [snlAux, if_pos ha]
      simp only [pairwiseOkB, Bool.and_eq_true]
      refine ⟨?_, ih true⟩
      have hh := snlAux_true_head_not_sp rest
      simp [snlOk, hh]
    · by_cases ha2 : a = ' '
      · by_cases hd : (b || optIsNl ((rest.dropWhile (fun x => x == ' ')).head?)) = true
        · rw [snlAux, if_neg ha, if_pos ha2, if_pos hd]
          exact ih b
        · rw [snlAux, if_neg ha, if_pos ha2, if_neg hd]
          simp only [pairwiseOkB, Bool.and_eq_true]
          refine ⟨?_, ih false⟩
          have hlook : optIsNl ((rest.dropWhile (fun x => x == ' ')).head?) = false := by
            cases hq : optIsNl ((rest.dropWhile (fun x => x == ' ')).head?) with
            | false => rfl
            | true => exact absurd (by rw [hq]; simp) hd
          have hh := snlAux_false_head_not_nl rest hlook
          simp [snlOk, hh]
      · rw [snlAux, if_neg ha, if_neg ha2]
        simp only [pairwiseOkB, Bool.and_eq_true]
        refine ⟨?_, ih false⟩
        simp [snlOk, optIsNl, optIsSp, ha, ha2]

lemma nl3_of_no_triple (s : List Char) (h : hasTripleNl s = false) : nl3 s = s := by
  induction s with
  | nil => rfl
  | cons a rest ih =>
    rw [hasTripleNl] at h
    simp only [Bool.or_eq_false_iff] at h
    obtain ⟨hc, ht⟩ := h
    rw [nl3, if_neg (by rw [hc]; exact Bool.false_ne_true), ih ht]

lemma dropWhile_dropWhile_self (p : Char → Bool) (s : List Char) :
    (s.dropWhile p).dropWhile p = s.dropWhile p := by
  induction s with
  | nil => rfl
  | cons a t ih =>
    rw [List.dropWhile_cons]
    by_cases h : p a = true
    · rw [if_pos h]; exact ih
    · rw [if_neg h, List.dropWhile_cons, if_neg h]

lemma dropWhile_head_not (p : Char → Bool) (s : List Char) (a : Char)
    (h : (s.dropWhile p).head? = some a) : p a = false := by
  induction s with
  | nil => simp at h
  | cons b t ih =>
    rw [List.dropWhile_cons] at h
    by_cases hb : p b = true
    · rw [if_pos hb] at h; exact ih h
    · rw [if_neg hb] at h
      simp only [List.head?_cons, Option.some.injEq] at h
      subst h
      simpa using hb

lemma dropWhile_eq_self_of_head (p : Char → Bool) (l : List Char)
    (h : ∀ a, l.head? = some a → p a = false) : l.dropWhile p = l := by
  cases l with
  | nil => rfl
  | cons a t =>
    rw [List.dropWhile_cons, if_neg (by rw [h a rfl]; exact Bool.false_ne_true)]

lemma pyStrip_idem (s : List Char) : pyStrip (pyStrip s) = pyStrip s := by
  unfold pyStrip
  have hA : ((((s.dropWhile pySpace).reverse.dropWhile pySpace).reverse).dropWhile pySpace) =
      ((s.dropWhile pySpace).reverse.dropWhile pySpace).reverse := by
    refine dropWhile_eq_self_of_head pySpace _ ?_
    intro a haeq
    rw [List.head?_reverse] at haeq
    have hne : ((s.dropWhile pySpace).reverse.dropWhile pySpace) ≠ [] := by
      intro hnil
      rw [hnil] at haeq
      simp at haeq
    obtain ⟨t, ht⟩ := dropWhile_suffix pySpace ((s.dropWhile pySpace).reverse)
    have hlast : ((s.dropWhile pySpace).reverse.dropWhile pySpace).getLast? =
        ((s.dropWhile pySpace).reverse).getLast? := by
      conv_rhs => rw [← ht]
      exact (List.getLast?_append_of_ne_nil _ hne).symm
    rw [hlast, List.getLast?_reverse] at haeq
    exact dropWhile_head_not pySpace _ a haeq
  rw [hA, List.reverse_reverse, dropWhile_dropWhile_self]

/-- C7: the claim that `normalize_text` is idempotent on every input is
false as stated, but holds for every input whose normalized form does
not contain three consecutive newlines: on such strings the character
substitutions, the space/tab collapsing, the newline collapsing, the
space-around-newline removal and the trim are each the identity, so a
second application changes nothing. (The failure mode: removing spaces
around newlines can create a fresh run of three or more newlines after
the newline-collapsing pass has already run.) -/
theorem C7_normalizer_idempotent_amended (s : List Char)
    (h : hasTripleNl (normalizeText s) = false) :
    normalizeText (normalizeText s) = normalizeText s := by
  have hg : ∀ c ∈ normalizeText s, goodChar c := by
    intro c hc
    unfold normalizeText at hc
    have hc1 := mem_pyStrip _ c hc
    have hc2 := mem_snlAux _ false c hc1
    have hc3 := mem_nl3 _ c hc2
    exact mem_cst_good _ (mem_substAll_good s) c hc3
  have hsub : substAll (normalizeText s) = normalizeText s := substAll_id _ hg
  have hfix : cstFixed (normalizeText s) = true := by
    unfold normalizeText
    refine pairwiseOkB_part cstOk cstOk_mono _ _ (pyStrip_part _) ?_
    exact snl_pres_cstFixed _ false (nl3_pres_cstFixed _ (cstFixed_cst _))
  have hcst : cst (normalizeText s) = normalizeText s := cst_of_fixed _ hfix
  have hnl : nl3 (normalizeText s) = normalizeText s := nl3_of_no_triple _ h
  have hsnlfix : pairwiseOkB snlOk (normalizeText s) = true := by
    unfold normalizeText
    exact pairwiseOkB_part snlOk snlOk_mono _ _ (pyStrip_part _) (snlOk_snlAux _ false)
  have hsnl : snl (normalizeText s) = normalizeText s :=
    snlAux_of_fixed _ false hsnlfix (fun hf => nomatch hf)
  have hstr : pyStrip (normalizeText s) = normalizeText s := pyStrip_idem _
  show pyStrip (snl (nl3 (cst (substAll (normalizeText s))))) = normalizeText s
  rw [hsub, hcst, hnl, hsnl, hstr]

/-- C7: the spec says `normalize(normalize(x)) == normalize(x)` for every
`x`, but on `"a\n \n \nb"` the first pass yields `"a\n\n\nb"` (the
space-around-newline removal creates a triple newline after the newline
collapsing already ran) and the second pass collapses it to `"a\n\nb"`,
so `normalize_text` is not idempotent. -/
theorem C7_normalizer_idempotent_counterexample :
    normalizeText (normalizeText (("a\n \n \nb").data)) ≠
      normalizeText (("a\n \n \nb").data) := by
  decide

theorem C7_normalizer_idempotent_amended_witness :
    hasTripleNl (normalizeText (("a  b\n\nc ").data)) = false ∧
    normalizeText (normalizeText (("a  b\n\nc ").data)) = normalizeText (("a  b\n\nc ").data) :=
  ⟨by decide, C7_normalizer_idempotent_amended _ (by decide)⟩

/-! ### Party span splitting (`regex_pack.split_party_span`, claims C8 and C10)

`split_party_span` first normalizes whitespace with
`' '.join(party_span.split())`, then walks the string once, tracking
parenthesis depth (clamped at zero on an unmatched closing parenthesis,
as `max(0, depth - 1)` — Nat subtraction below), appending characters to
`current` and flushing stripped, non-empty parties at separators.

The two regexes are embedded by their derived deterministic semantics
(each is anchored at the current position and is used only as a Boolean):

* the jurisdictional pattern
  `^,?\s*a\s+(?:Delaware|Nevada|California|New York|Texas|Florida|Maryland|[A-Z][a-z]+)\s+`
  with `re.IGNORECASE`: an optional comma, optional whitespace, the
  letter a/A, at least one whitespace, then either one of the state
  names case-insensitively followed by a whitespace, or (because
  IGNORECASE makes `[A-Z]` and `[a-z]` both match any ASCII letter) a
  maximal ASCII-letter run of length at least two followed by a
  whitespace. Backtracking cannot produce other matches: a shorter
  letter run ends in a letter, which `\s+` rejects.
* the party separator
  `,\s+[A-Z][a-z]+\s+(?:Inc|Corp|LLC|Ltd|Co|LP|Holdings|Group|Merger)`
  (case-sensitive): a comma, at least one whitespace, one uppercase
  ASCII letter, a maximal non-empty lowercase run followed by a
  whitespace, more whitespace, then one of the literal words as a plain
  prefix (the regex has no trailing boundary). -/

def asciiUpper (c : Char) : Bool := decide ('A' ≤ c) && decide (c ≤ 'Z')

def asciiLower (c : Char) : Bool := decide ('a' ≤ c) && decide (c ≤ 'z')

def asciiLetter (c : Char) : Bool := asciiUpper c || asciiLower c

def optPySpace : Option Char → Bool
  | some c => pySpace c
  | none => false

/-- Case-insensitive literal prefix (the pattern is given lowercased)
followed by at least one whitespace character. -/
def ciPrefixThenWs (pat u : List Char) : Bool :=
  startsList pat (pyLower u) && optPySpace ((u.drop pat.length).head?)

/-- `[A-Z][a-z]+\s` under IGNORECASE: two or more ASCII letters (the
maximal run) followed by a whitespace character. -/
def letterRunThenWsCi (u : List Char) : Bool :=
  match u with
  | a :: b :: _ =>
    asciiLetter a && asciiLetter b && optPySpace ((u.dropWhile asciiLetter).head?)
  | _ => false

/-- The jurisdictional pattern after its optional leading comma. -/
def juTail (u : List Char) : Bool :=
  match u.dropWhile pySpace with
  | c :: u2 =>
    (c == 'a' || c == 'A') &&
    (match u2 with
     | d :: _ =>
       pySpace d &&
       (ciPrefixThenWs (("delaware").data) (u2.dropWhile pySpace) ||
        ciPrefixThenWs (("nevada").data) (u2.dropWhile pySpace) ||
        ciPrefixThenWs (("california").data) (u2.dropWhile pySpace) ||
        ciPrefixThenWs (("new york").data) (u2.dropWhile pySpace) ||
        ciPrefixThenWs (("texas").data) (u2.dropWhile pySpace) ||
        ciPrefixThenWs (("florida").data) (u2.dropWhile pySpace) ||
        ciPrefixThenWs (("maryland").data) (u2.dropWhile pySpace) ||
        letterRunThenWsCi (u2.dropWhile pySpace))
     | [] => false)
  | [] => false

/-- `jurisdictional_pattern.match(rest)` as a Boolean. -/
def juMatch (rest : List Char) : Bool :=
  match rest with
  | ',' :: t => juTail t
  | _ => juTail rest

/-- `re.match(r',\s+[A-Z][a-z]+\s+(?:Inc|Corp|LLC|Ltd|Co|LP|Holdings|Group|Merger)', rest)`
as a Boolean. -/
def partySepB (rest : List Char) : Bool :=
  match rest with
  | ',' :: r1 =>
    (match r1 with
     | d :: _ =>
       pySpace d &&
       (match r1.dropWhile pySpace with
        | u :: r3 =>
          asciiUpper u &&
          (match r3 with
           | l :: _ =>
             asciiLower l &&
             (match r3.dropWhile asciiLower with
              | w :: _ =>
                pySpace w &&
                (startsList (("Inc").data) ((r3.dropWhile asciiLower).dropWhile pySpace) ||
                 startsList (("Corp").data) ((r3.dropWhile asciiLower).dropWhile pySpace) ||
                 startsList (("LLC").data) ((r3.dropWhile asciiLower).dropWhile pySpace) ||
                 startsList (("Ltd").data) ((r3.dropWhile asciiLower).dropWhile pySpace) ||
                 startsList (("Co").data) ((r3.dropWhile asciiLower).dropWhile pySpace) ||
                 startsList (("LP").data) ((r3.dropWhile asciiLower).dropWhile pySpace) ||
                 startsList (("Holdings").data) ((r3.dropWhile asciiLower).dropWhile pySpace) ||
                 startsList (("Group").data) ((r3.dropWhile asciiLower).dropWhile pySpace) ||
                 startsList (("Merger").data) ((r3.dropWhile asciiLower).dropWhile pySpace))
              | [] => false)
           | [] => false)
        | [] => false)
     | [] => false)
  | _ => false

/-- The characters skipped after a party-separator comma
(`party_span[i] in ' \t\n'`). -/
def wsSTN (c : Char) : Bool := c == ' ' || c == '\t' || c == '\n'

/-- `before.endswith(')') or before.endswith('"') or before.endswith("'")`. -/
def lastCloser (l : List Char) : Bool :=
  match l.getLast? with
  | some x => x == ')' || x == '"' || x == '\x27'
  | none => false

/-- `party_text = ''.join(current).strip(); if party_text: parties.append(party_text)`. -/
def flushParty (parties : List (List Char)) (current : List Char) : List (List Char) :=
  if (pyStrip current).isEmpty then parties else parties ++ [pyStrip current]

/-- The scanning loop of `split_party_span`. Every iteration consumes at
least one character of the remaining string, so the structural fuel
`length + 1` supplied by `splitPartySpan` never runs out; the fuel-zero
branch flushes like the end of string and is unreachable. -/
def splitLoopF : Nat → List (List Char) → List Char → Nat → List Char → List (List Char)
  | _, parties, current, _, [] => flushParty parties current
  | 0, parties, current, _, _ :: _ => flushParty parties current
  | fuel + 1, parties, current, depth, c :: rest =>
    if c = '(' then splitLoopF fuel parties (current ++ [c]) (depth + 1) rest
    else if c = ')' then splitLoopF fuel parties (current ++ [c]) (depth - 1) rest
    else if c = ',' ∧ depth = 0 then
      if juMatch (c :: rest) then splitLoopF fuel parties (current ++ [c]) depth rest
      else if startsList ((", and ").data) (pyLower (c :: rest)) ||
          startsList ((", and\n").data) (pyLower (c :: rest)) then
        splitLoopF fuel (flushParty parties current) [] depth (rest.drop 5)
      else if partySepB (c :: rest) then
        splitLoopF fuel (flushParty parties current) [] depth (rest.dropWhile wsSTN)
      else splitLoopF fuel parties (current ++ [c]) depth rest
    else if pyLower ((c :: rest).take 5) == ((" and ").data) ∧ depth = 0 then
      if (!(pyStrip current).isEmpty) && lastCloser (pyStrip current) then
        splitLoopF fuel (parties ++ [pyStrip current]) [] depth (rest.drop 4)
      else splitLoopF fuel parties (current ++ [c]) depth rest
    else splitLoopF fuel parties (current ++ [c]) depth rest

/-- `split_party_span` of `regex_pack.py` (lines 64–149). -/
def splitPartySpan (s : List Char) : List (List Char) :=
  splitLoopF ((joinSpace (pyWords s)).length + 1) [] [] 0 (joinSpace (pyWords s))

lemma c8_norm : joinSpace (pyWords (("A Inc., B (a Delaware corporation), and C LLC").data)) =
    ("A Inc., B (a Delaware corporation), and C LLC").data := by
  simp [pyWords, joinSpace, pySpace]

lemma c8_eval : splitPartySpan (("A Inc., B (a Delaware corporation), and C LLC").data) =
    [("A Inc., B (a Delaware corporation)").data, ("C LLC").data] := by
  unfold splitPartySpan
  rw [c8_norm]
  decide

/-- C8: the spec says `split_party_span` on
`"A Inc., B (a Delaware corporation), and C LLC"` yields exactly three
elements; it in fact yields two. The comma after `"A Inc."` is not
taken as a party separator because the separator regex
`,\s+[A-Z][a-z]+\s+(?:Inc|...)` requires a capital letter followed by at
least one lowercase letter, which the single-letter name `B` does not
provide, so `"A Inc., B (a Delaware corporation)"` stays one party. -/
theorem C8_party_split_example_counterexample :
    (splitPartySpan (("A Inc., B (a Delaware corporation), and C LLC").data)).length ≠ 3 := by
  rw [c8_eval]
  decide

/-- C8 (amended): `split_party_span` on
`"A Inc., B (a Delaware corporation), and C LLC"` returns exactly the
two parties `"A Inc., B (a Delaware corporation)"` and `"C LLC"`. -/
theorem C8_party_split_example_amended :
    splitPartySpan (("A Inc., B (a Delaware corporation), and C LLC").data) =
      [("A Inc., B (a Delaware corporation)").data, ("C LLC").data] :=
  c8_eval

lemma flushParty_inv (parties : List (List Char)) (current : List Char)
    (hinv : ∀ p ∈ parties, p ≠ [] ∧ pyStrip p = p) :
    ∀ p ∈ flushParty parties current, p ≠ [] ∧ pyStrip p = p := by
  intro p hp
  unfold flushParty at hp
  split_ifs at hp with h
  · exact hinv p hp
  · rcases List.mem_append.mp hp with h1 | h1
    · exact hinv p h1
    · simp only [List.mem_singleton] at h1
      subst h1
      refine ⟨?_, pyStrip_idem current⟩
      intro hnil
      rw [hnil] at h
      simp at h

lemma splitLoopF_inv (fuel : Nat) : ∀ (parties : List (List Char)) (current : List Char)
    (depth : Nat) (t : List Char),
    (∀ p ∈ parties, p ≠ [] ∧ pyStrip p = p) →
    ∀ p ∈ splitLoopF fuel parties current depth t, p ≠ [] ∧ pyStrip p = p := by
  induction fuel with
  | zero =>
    intro parties current depth t hinv p hp
    cases t with
    | nil => exact flushParty_inv parties current hinv p hp
    | cons c rest => exact flushParty_inv parties current hinv p hp
  | succ fuel ih =>
    intro parties current depth t hinv p hp
    cases t with
    | nil => exact flushParty_inv parties current hinv p hp
    | cons c rest =>
      rw [splitLoopF] at hp
      split_ifs at hp with h1 h2 h3 h4 h5 h6 h7 h8
      · exact ih _ _ _ _ hinv p hp
      · exact ih _ _ _ _ hinv p hp
      · exact ih _ _ _ _ hinv p hp
      · exact ih _ _ _ _ (flushParty_inv parties current hinv) p hp
      · exact ih _ _ _ _ (flushParty_inv parties current hinv) p hp
      · exact ih _ _ _ _ hinv p hp
      · refine ih _ _ _ _ ?_ p hp
        intro q hq
        rcases List.mem_append.mp hq with hq1 | hq1
        · exact hinv q hq1
        · simp only [List.mem_singleton] at hq1
          subst hq1
          refine ⟨?_, pyStrip_idem current⟩
          intro hnil
          have h71 := (andBool h8).1
          rw [hnil] at h71
          simp at h71
      · exact ih _ _ _ _ hinv p hp
      · exact ih _ _ _ _ hinv p hp

/-- C10: `split_party_span` is total (it is a terminating function on
every input, with the parenthesis depth clamped at zero by Nat
subtraction exactly as `max(0, depth - 1)`), and every party it returns
is non-empty and already stripped: each appended element is
`''.join(current).strip()` guarded by a non-emptiness check, and
stripping is idempotent. -/
theorem C10_split_party_span_total (s p : List Char) (hp : p ∈ splitPartySpan s) :
    p ≠ [] ∧ pyStrip p = p := by
  unfold splitPartySpan at hp
  refine splitLoopF_inv _ [] [] 0 _ ?_ p hp
  intro q hq
  simp at hq

theorem C10_split_party_span_total_witness :
    ("C LLC").data ≠ [] ∧ pyStrip (("C LLC").data) = ("C LLC").data :=
  C10_split_party_span_total (("A Inc., B (a Delaware corporation), and C LLC").data)
    (("C LLC").data) (by rw [c8_eval]; decide)

/-! ### Table grid expansion (`table_parser.TableParser._parse_table_element`, claim C9)

The HTML side (BeautifulSoup traversal and `_get_cell_text`) is outside
the embedding: its output is taken as `raw`, the `raw_cells` list of the
source — one entry per `tr`, each cell a `(text, rowspan, colspan,
is_header)` tuple. The grid is modelled as a function
`Nat → Nat → Option TableCell`; `grid[r][c] = cell` becomes a pointwise
functional update over the written rectangle, which is exactly the two
clipped `range` loops of the source. The `break` on `col_idx >= max_cols`
is rendered as a skip that leaves the state unchanged: once `col_idx`
has reached `max_cols` the empty-column scan has zero budget and every
later cell of the row is skipped with the state unchanged, which is the
same final state the `break` produces. -/

structure RawCell where
  text : List Char
  rowspan : Nat
  colspan : Nat
  isHeader : Bool
deriving DecidableEq

structure TableCell where
  text : List Char
  row : Nat
  col : Nat
  rowspan : Nat
  colspan : Nat
  isHeader : Bool
deriving DecidableEq

/-- `TableIR` restricted to the fields `_parse_table_element` fills
(header and role detection happen in later passes). -/
structure TableIR where
  cells : List (List TableCell)
  numRows : Nat
  numCols : Nat
deriving DecidableEq

/-- `max(sum(c[2] for c in row) for row in raw_cells)`; all sums are
non-negative, so the fold from 0 is the Python `max` on a non-empty
list. -/
def maxCols (raw : List (List RawCell)) : Nat :=
  (raw.map (fun row => (row.map (fun c => c.colspan)).sum)).foldl Nat.max 0

/-- The `while col_idx < max_cols and grid[row_idx][col_idx] is not None`
scan; the fuel is `max_cols - col_idx`, so the scan stops at the first
empty column or at `max_cols`. -/
def nextEmptyF : Nat → (Nat → Option TableCell) → Nat → Nat
  | 0, _, col => col
  | fuel + 1, rowf, col =>
    match rowf col with
    | some _ => nextEmptyF fuel rowf (col + 1)
    | none => col

/-- The two clipped `range` loops writing one cell into the grid. -/
def writeSpan (g : Nat → Nat → Option TableCell) (cell : TableCell)
    (r1 r2 c1 c2 : Nat) : Nat → Nat → Option TableCell :=
  fun r c => if r1 ≤ r ∧ r < r2 ∧ c1 ≤ c ∧ c < c2 then some cell else g r c

/-- One raw cell of row `i`: scan for the next empty column, skip when
the row is full, otherwise place the cell and expand its span. -/
def fillCell (R C i : Nat) (st : (Nat → Nat → Option TableCell) × Nat) (rc : RawCell) :
    (Nat → Nat → Option TableCell) × Nat :=
  if C ≤ nextEmptyF (C - st.2) (st.1 i) st.2 then (st.1, nextEmptyF (C - st.2) (st.1 i) st.2)
  else
    (writeSpan st.1
      { text := rc.text, row := i, col := nextEmptyF (C - st.2) (st.1 i) st.2,
        rowspan := rc.rowspan, colspan := rc.colspan, isHeader := rc.isHeader }
      i (min (i + rc.rowspan) R)
      (nextEmptyF (C - st.2) (st.1 i) st.2)
      (min ((nextEmptyF (C - st.2) (st.1 i) st.2) + rc.colspan) C),
     nextEmptyF (C - st.2) (st.1 i) st.2 + rc.colspan)

/-- The outer fill loop over `raw_cells`, row by row. -/
def fillRows (R C : Nat) : (Nat → Nat → Option TableCell) → Nat → List (List RawCell) →
    (Nat → Nat → Option TableCell)
  | g, _, [] => g
  | g, i, row :: rows => fillRows R C (row.foldl (fillCell R C i) (g, 0)).1 (i + 1) rows

def emptyCell (i j : Nat) : TableCell :=
  { text := [], row := i, col := j, rowspan := 1, colspan := 1, isHeader := false }

/-- The final conversion: `None` grid entries become empty-text cells at
their own position. -/
def buildCells (R C : Nat) (g : Nat → Nat → Option TableCell) : List (List TableCell) :=
  (List.range R).map (fun i => (List.range C).map (fun j =>
    match g i j with
    | some cell => cell
    | none => emptyCell i j))

/-- `_parse_table_element` from `raw_cells` on (lines 146–221): `None`
iff there is no row. -/
def parseTableElement (raw : List (List RawCell)) : Option TableIR :=
  match raw with
  | [] => none
  | _ :: _ =>
    some { cells := buildCells raw.length (maxCols raw)
             (fillRows raw.length (maxCols raw) (fun _ _ => none) 0 raw),
           numRows := raw.length,
           numCols := maxCols raw }

/-- Every placed grid entry sits inside the clipped span of the cell
that occupies it. -/
def gridOk (R C : Nat) (g : Nat → Nat → Option TableCell) : Prop :=
  ∀ i j cell, g i j = some cell →
    cell.row ≤ i ∧ i < min (cell.row + cell.rowspan) R ∧
    cell.col ≤ j ∧ j < min (cell.col + cell.colspan) C

lemma writeSpan_ok (R C : Nat) (g : Nat → Nat → Option TableCell) (cell : TableCell)
    (hok : gridOk R C g) :
    gridOk R C (writeSpan g cell cell.row (min (cell.row + cell.rowspan) R) cell.col
      (min (cell.col + cell.colspan) C)) := by
  intro i j c hc
  unfold writeSpan at hc
  split_ifs at hc with h
  · obtain ⟨h1, h2, h3, h4⟩ := h
    cases hc
    exact ⟨h1, h2, h3, h4⟩
  · exact hok i j c hc

lemma fillCell_ok (R C i : Nat) (st : (Nat → Nat → Option TableCell) × Nat) (rc : RawCell)
    (hok : gridOk R C st.1) : gridOk R C (fillCell R C i st rc).1 := by
  unfold fillCell
  split_ifs with h
  · exact hok
  · exact writeSpan_ok R C st.1
      { text := rc.text, row := i, col := nextEmptyF (C - st.2) (st.1 i) st.2,
        rowspan := rc.rowspan, colspan := rc.colspan, isHeader := rc.isHeader } hok

lemma fillRow_ok (R C i : Nat) (row : List RawCell) :
    ∀ st : (Nat → Nat → Option TableCell) × Nat, gridOk R C st.1 →
    gridOk R C (row.foldl (fillCell R C i) st).1 := by
  induction row with
  | nil => intro st h; exact h
  | cons rc rest ih =>
    intro st h
    rw [List.foldl_cons]
    exact ih _ (fillCell_ok R C i st rc h)

lemma fillRows_ok (R C : Nat) (raw : List (List RawCell)) :
    ∀ (g : Nat → Nat → Option TableCell) (i : Nat), gridOk R C g →
    gridOk R C (fillRows R C g i raw) := by
  induction raw with
  | nil => intro g i h; exact h
  | cons row rows ih =>
    intro g i h
    rw [fillRows]
    exact ih _ _ (fillRow_ok R C i row (g, 0) h)

/-- The cell of the parsed grid at position `(i, j)`. -/
def cellAt (ir : TableIR) (i j : Nat) : TableCell :=
  (ir.cells.getD i []).getD j (emptyCell i j)

lemma buildCells_at (R C : Nat) (g : Nat → Nat → Option TableCell) (i j : Nat)
    (hi : i < R) (hj : j < C) :
    cellAt { cells := buildCells R C g, numRows := R, numCols := C } i j =
      (match g i j with
       | some cell => cell
       | none => emptyCell i j) := by
  have hrow : (buildCells R C g).getD i [] =
      (List.range C).map (fun j => match g i j with
        | some cell => cell
        | none => emptyCell i j) := by
    unfold buildCells
    rw [List.getD_eq_getElem?_getD, List.getElem?_map, List.getElem?_range hi]
    rfl
  show ((buildCells R C g).getD i []).getD j (emptyCell i j) = _
  rw [hrow, List.getD_eq_getElem?_getD, List.getElem?_map, List.getElem?_range hj]
  rfl

/-- C9: the grid built by `_parse_table_element` is dense and
rectangular: `cells` has exactly `num_rows` rows, every row has exactly
`num_cols` columns where `num_cols` is the maximum over the raw rows of
their colspan sums, and every position holds either the empty filler
cell of that position or a placed cell whose rowspan/colspan rectangle,
clipped to the grid bounds, covers the position. -/
theorem C9_table_grid (raw : List (List RawCell)) (ir : TableIR)
    (h : parseTableElement raw = some ir) :
    ir.numRows = raw.length ∧
    ir.numCols = maxCols raw ∧
    ir.cells.length = ir.numRows ∧
    (∀ row ∈ ir.cells, row.length = ir.numCols) ∧
    (∀ i j, i < ir.numRows → j < ir.numCols →
      cellAt ir i j = emptyCell i j ∨
      (((cellAt ir i j).row ≤ i ∧ i < min ((cellAt ir i j).row + (cellAt ir i j).rowspan) ir.numRows) ∧
       ((cellAt ir i j).col ≤ j ∧ j < min ((cellAt ir i j).col + (cellAt ir i j).colspan) ir.numCols))) := by
  cases raw with
  | nil => simp [parseTableElement] at h
  | cons row0 rows =>
    rw [parseTableElement] at h
    injection h with h
    subst h
    refine ⟨rfl, rfl, by simp [buildCells], ?_, ?_⟩
    · intro r hr
      simp only [buildCells, List.mem_map] at hr
      obtain ⟨i, -, hi⟩ := hr
      subst hi
      simp
    · intro i j hi hj
      have hok : gridOk (row0 :: rows).length (maxCols (row0 :: rows))
          (fillRows (row0 :: rows).length (maxCols (row0 :: rows)) (fun _ _ => none) 0
            (row0 :: rows)) := by
        refine fillRows_ok _ _ _ _ 0 ?_
        intro a b c hc
        exact absurd hc (by simp)
      have hcell : cellAt
          { cells := buildCells (row0 :: rows).length (maxCols (row0 :: rows))
              (fillRows (row0 :: rows).length (maxCols (row0 :: rows)) (fun _ _ => none) 0
                (row0 :: rows)),
            numRows := (row0 :: rows).length, numCols := maxCols (row0 :: rows) } i j =
          (match fillRows (row0 :: rows).length (maxCols (row0 :: rows)) (fun _ _ => none) 0
              (row0 :: rows) i j with
           | some cell => cell
           | none => emptyCell i j) :=
        buildCells_at _ _ _ i j hi hj
      rw [hcell]
      cases hg : fillRows (row0 :: rows).length (maxCols (row0 :: rows)) (fun _ _ => none) 0
          (row0 :: rows) i j with
      | none => left; rfl
      | some cell =>
        right
        obtain ⟨h1, h2, h3, h4⟩ := hok i j cell hg
        exact ⟨⟨h1, h2⟩, ⟨h3, h4⟩⟩

/-- A two-row table with a 2x2 spanning cell, a header cell and a
clipped colspan (3 requested, 1 available). -/
def c9Raw : List (List RawCell) :=
  [[{ text := ("x").data, rowspan := 2, colspan := 2, isHeader := false },
    { text := ("y").data, rowspan := 1, colspan := 1, isHeader := true }],
   [{ text := ("z").data, rowspan := 1, colspan := 3, isHeader := false }]]

def c9Ir : TableIR :=
  { cells :=
      [[{ text := ("x").data, row := 0, col := 0, rowspan := 2, colspan := 2, isHeader := false },
        { text := ("x").data, row := 0, col := 0, rowspan := 2, colspan := 2, isHeader := false },
        { text := ("y").data, row := 0, col := 2, rowspan := 1, colspan := 1, isHeader := true }],
       [{ text := ("x").data, row := 0, col := 0, rowspan := 2, colspan := 2, isHeader := false },
        { text := ("x").data, row := 0, col := 0, rowspan := 2, colspan := 2, isHeader := false },
        { text := ("z").data, row := 1, col := 2, rowspan := 1, colspan := 3, isHeader := false }]],
    numRows := 2, numCols := 3 }

theorem C9_table_grid_witness :
    c9Ir.numRows = c9Raw.length ∧
    c9Ir.numCols = maxCols c9Raw ∧
    c9Ir.cells.length = c9Ir.numRows ∧
    (∀ row ∈ c9Ir.cells, row.length = c9Ir.numCols) ∧
    (∀ i j, i < c9Ir.numRows → j < c9Ir.numCols →
      cellAt c9Ir i j = emptyCell i j ∨
      (((cellAt c9Ir i j).row ≤ i ∧
        i < min ((cellAt c9Ir i j).row + (cellAt c9Ir i j).rowspan) c9Ir.numRows) ∧
       ((cellAt c9Ir i j).col ≤ j ∧
        j < min ((cellAt c9Ir i j).col + (cellAt c9Ir i j).colspan) c9Ir.numCols))) :=
  C9_table_grid c9Raw c9Ir (by decide)

end MAFG
